import Mathlib

/-! ## Simulated Hospital: the `simulator` entry point

A shallow embedding of `cmd/simulator/simulator.go` and of the Go standard
library functions it calls (`path.Join`, `path.Clean`, `strings.Split`,
`strings.Join`, `errors.Wrap`), followed by the properties of the
configuration wiring.

Go strings are modelled as lists of characters (`GoString`): a string that is
valid UTF-8 is represented by its code points.  Every byte comparison made by
the modelled library functions is against an ASCII byte (`/`, `.`, `,`), and
in UTF-8 such a byte only ever stands for itself, so scanning code points and
scanning bytes take the same decisions.
-/

/-- A Go `string`. -/
abbrev GoString := List Char

/-! ## Package `path` of the Go standard library -/

namespace path

/-- The zero byte that `make([]byte, n)` fills a fresh slice with. -/
def zeroByte : Char := Char.ofNat 0

/-- The type `lazybuf` of `path/path.go`: a lazily constructed path buffer.
`buf = none` is the nil slice: the output so far is `s[:w]`. -/
structure lazybuf where
  s : GoString
  buf : Option (List Char)
  w : Nat
deriving DecidableEq, Repr

/-- Method `(*lazybuf).index`. -/
def lazybuf.index (b : lazybuf) (i : Nat) : Char :=
  match b.buf with
  | some a => a.getD i zeroByte
  | none => b.s.getD i zeroByte

/-- Method `(*lazybuf).append`: while the output agrees with `s` only `w`
moves; at the first difference the buffer is allocated (`len(s)` zero bytes)
and `s[:w]` copied into it. -/
def lazybuf.append (b : lazybuf) (c : Char) : lazybuf :=
  match b.buf with
  | none =>
    if b.w < b.s.length ∧ b.s.getD b.w zeroByte = c then
      { b with w := b.w + 1 }
    else
      { b with
        buf := some ((b.s.take b.w ++ List.replicate (b.s.length - b.w) zeroByte).set b.w c)
        w := b.w + 1 }
  | some a => { b with buf := some (a.set b.w c), w := b.w + 1 }

/-- Method `(*lazybuf).string`. -/
def lazybuf.string (b : lazybuf) : GoString :=
  match b.buf with
  | none => b.s.take b.w
  | some a => a.take b.w

/-- The inner loop of the `..` case of `Clean`, entered after the first
`out.w--`: `for out.w > dotdot && out.index(out.w) != '/' { out.w-- }`.
The recursion is on `out.w` itself. -/
def backtrack (out : lazybuf) (dotdot : Nat) : Nat → Nat
  | 0 => 0
  | w + 1 => if w + 1 > dotdot ∧ out.index (w + 1) ≠ '/' then backtrack out dotdot w else w + 1

/-- The copy loop of the default case of `Clean`:
`for ; r < n && path[r] != '/'; r++ { out.append(path[r]) }`.
The unread input `path[r:]` is passed and returned as a list. -/
def copyElem : GoString → lazybuf → GoString × lazybuf
  | [], out => ([], out)
  | c :: rest, out => if c = '/' then (c :: rest, out) else copyElem rest (out.append c)

/-- One iteration of the loop `for r < n` of `Clean`, on the unread input
`path[r:]`, the output buffer and `dotdot`; the four branches are the four
cases of the `switch`, in order. -/
def cleanStep (rooted : Bool) (rest : GoString) (out : lazybuf) (dotdot : Nat) :
    GoString × lazybuf × Nat :=
  match rest with
  | [] => ([], out, dotdot)
  | c :: t =>
    if c = '/' then
      (t, out, dotdot)
    else if c = '.' ∧ (t = [] ∨ t.head? = some '/') then
      (t, out, dotdot)
    else if c = '.' ∧ t.head? = some '.' ∧ (t.tail = [] ∨ t.tail.head? = some '/') then
      if out.w > dotdot then
        (t.tail, { out with w := backtrack out dotdot (out.w - 1) }, dotdot)
      else if ¬ rooted then
        let out1 := if out.w > 0 then out.append '/' else out
        let out2 := (out1.append '.').append '.'
        (t.tail, out2, out2.w)
      else
        (t.tail, out, dotdot)
    else
      let out1 :=
        if (rooted ∧ out.w ≠ 1) ∨ (¬ rooted ∧ out.w ≠ 0) then out.append '/' else out
      let res := copyElem (c :: t) out1
      (res.1, res.2, dotdot)

/-- The loop `for r < n` of `Clean`.  Every iteration reads at least one byte,
so `len(path)` iterations always suffice (`cleanLoop_fuel`). -/
def cleanLoop (rooted : Bool) : Nat → GoString → lazybuf → Nat → lazybuf
  | 0, _, out, _ => out
  | fuel + 1, rest, out, dotdot =>
    match rest with
    | [] => out
    | _ :: _ =>
      let st := cleanStep rooted rest out dotdot
      cleanLoop rooted fuel st.1 st.2.1 st.2.2

/-- Function `path.Clean`. -/
def Clean (p : GoString) : GoString :=
  if p = [] then ['.']
  else
    let rooted : Bool := p.head? = some '/'
    let out0 : lazybuf := { s := p, buf := none, w := 0 }
    let out :=
      if rooted then cleanLoop rooted p.length p.tail (out0.append '/') 1
      else cleanLoop rooted p.length p out0 0
    if out.w = 0 then ['.'] else out.string

/-- The loop of `path.Join` that builds `buf`: the non-empty prefix rule
`if len(buf) > 0 || e != ""` and the separating slash. -/
def joinBuf : GoString → List GoString → GoString
  | buf, [] => buf
  | buf, e :: es =>
    if buf.length > 0 ∨ e ≠ [] then
      joinBuf ((if buf.length > 0 then buf ++ ['/'] else buf) ++ e) es
    else joinBuf buf es

/-- Function `path.Join`. -/
def Join (elem : List GoString) : GoString :=
  let size := (elem.map List.length).sum
  if size = 0 then [] else Clean (joinBuf [] elem)

/-- The table `cleantests` of `path/path_test.go`: a path and its `Clean`. -/
def cleantests : List (String × String) :=
  [("", "."),
   ("abc", "abc"),
   ("abc/def", "abc/def"),
   ("a/b/c", "a/b/c"),
   (".", "."),
   ("..", ".."),
   ("../..", "../.."),
   ("../../abc", "../../abc"),
   ("/abc", "/abc"),
   ("/", "/"),
   ("abc/", "abc"),
   ("abc/def/", "abc/def"),
   ("a/b/c/", "a/b/c"),
   ("./", "."),
   ("../", ".."),
   ("../../", "../.."),
   ("/abc/", "/abc"),
   ("abc//def//ghi", "abc/def/ghi"),
   ("//abc", "/abc"),
   ("///abc", "/abc"),
   ("//abc//", "/abc"),
   ("abc//", "abc"),
   ("abc/./def", "abc/def"),
   ("/./abc/def", "/abc/def"),
   ("abc/.", "abc"),
   ("abc/def/ghi/../jkl", "abc/def/jkl"),
   ("abc/def/../ghi/../jkl", "abc/jkl"),
   ("abc/def/..", "abc"),
   ("abc/def/../..", "."),
   ("/abc/def/../..", "/"),
   ("abc/def/../../..", ".."),
   ("/abc/def/../../..", "/"),
   ("abc/def/../../../ghi/jkl/../../../mno", "../../mno"),
   ("abc/./../def", "def"),
   ("abc//./../def", "def"),
   ("abc/../../././../def", "../../def")]

/-- The two-element rows of the table `jointests` of `path/path_test.go` and
the examples of the documentation of `Join`: the elements and their `Join`. -/
def jointests : List (List String × String) :=
  [(["a", "b"], "a/b"),
   (["a", ""], "a"),
   (["", "b"], "b"),
   (["/", "a"], "/a"),
   (["/", ""], "/"),
   (["a/", "b"], "a/b"),
   (["a/", ""], "a"),
   (["", ""], ""),
   (["a", "b/c"], "a/b/c"),
   (["a/b", "../../../xyz"], "../xyz")]

/-! ### `Clean` read element by element

The definitions below state what `Clean` computes in terms of the elements of
a path (the pieces between slashes); the properties section proves that the
byte loop above computes exactly this. -/

/-- The elements joined by single slashes. -/
def joinSlash : List GoString → GoString
  | [] => []
  | e :: es =>
    match es with
    | [] => e
    | _ :: _ => e ++ '/' :: joinSlash es

/-- The elements kept so far: `dots` leading `..` elements, then `elems`. -/
structure Stack where
  dots : Nat
  elems : List GoString
deriving DecidableEq, Repr

/-- All the elements kept, in order. -/
def Stack.list (σ : Stack) : List GoString :=
  List.replicate σ.dots ['.', '.'] ++ σ.elems

/-- The bytes of the output buffer for the elements kept. -/
def render (rooted : Bool) (σ : Stack) : GoString :=
  (if rooted then ['/'] else []) ++ joinSlash σ.list

/-- The value of `dotdot` for the elements kept. -/
def dotdotOf (rooted : Bool) (σ : Stack) : Nat :=
  if rooted then 1 else (joinSlash (List.replicate σ.dots ['.', '.'])).length

/-- The effect of one element on the elements kept: an empty element and
`.` are dropped, `..` removes the last element kept (or, with none to remove,
is kept itself in a path that is not rooted), any other is kept. -/
def processElem (rooted : Bool) (σ : Stack) (e : GoString) : Stack :=
  if e = [] ∨ e = ['.'] then σ
  else if e = ['.', '.'] then
    if σ.elems ≠ [] then { σ with elems := σ.elems.dropLast }
    else if rooted then σ
    else { σ with dots := σ.dots + 1 }
  else { σ with elems := σ.elems ++ [e] }

/-- An element that `Clean` keeps as it is: not empty, not `.`, not `..`,
without a slash. -/
def IsReal (e : GoString) : Prop :=
  e ≠ [] ∧ e ≠ ['.'] ∧ e ≠ ['.', '.'] ∧ '/' ∉ e

/-- The elements kept are well formed: names only after the leading `..`,
and no `..` in a rooted path. -/
def Stack.Valid (rooted : Bool) (σ : Stack) : Prop :=
  (rooted = true → σ.dots = 0) ∧ ∀ e ∈ σ.elems, IsReal e

/-- The result of `Clean` for the elements kept at the end. -/
def renderFinal (rooted : Bool) (σ : Stack) : GoString :=
  if render rooted σ = [] then ['.'] else render rooted σ

/-- The elements of a path: the pieces between its slashes. -/
def elements : GoString → List GoString
  | [] => [[]]
  | c :: t =>
    if c = '/' then [] :: elements t
    else
      match elements t with
      | [] => [[c]]
      | e :: es => (c :: e) :: es

/-- What `Clean` computes, element by element: the elements of the path are
fed to `processElem` and the elements kept are rendered. -/
def cleanByElements (p : GoString) : GoString :=
  if p = [] then ['.']
  else if p.head? = some '/' then
    renderFinal true ((elements p.tail).foldl (processElem true) ⟨0, []⟩)
  else renderFinal false ((elements p).foldl (processElem false) ⟨0, []⟩)

/-- The buffer `out` holds the bytes `l`, for an input of `n` bytes. -/
structure Rep (out : lazybuf) (l : List Char) (n : Nat) : Prop where
  len_s : out.s.length = n
  str : out.string = l
  w_eq : out.w = l.length
  buf_len : ∀ a, out.buf = some a → a.length = n
  le : l.length ≤ n

/-- The state of the loop of `Clean` at the start of an element: the buffer
holds the rendering of the elements kept, `dotdot` is their `dotdotOf`, and
what is held and what is still to read fit in the `n` bytes of the input. -/
structure Inv (rooted : Bool) (n : Nat) (rest : GoString) (out : lazybuf) (dd : Nat)
    (σ : Stack) : Prop where
  rep : Rep out (render rooted σ) n
  dd_eq : dd = dotdotOf rooted σ
  valid : σ.Valid rooted
  room : (render rooted σ).length + rest.length ≤ n

end path

/-! ## Package `strings` of the Go standard library -/

namespace strings

/-- The scan behind `strings.Index`: the first position, counted from `i`, at
which `substr` starts, or `-1`. -/
def indexFrom (substr : GoString) : GoString → Nat → Int
  | [], i => if substr = [] then (i : Int) else -1
  | c :: t, i => if substr.isPrefixOf (c :: t) then (i : Int) else indexFrom substr t (i + 1)

/-- Function `strings.Index`: the index of the first instance of `substr` in
`s`, or `-1` if `substr` is not present in `s`. -/
def Index (s substr : GoString) : Int := indexFrom substr s 0

/-- The loop of `strings.Count` for a separator of two bytes or more:
`i := Index(s, substr); if i == -1 { return n }; n++; s = s[i+len(substr):]`.
Every iteration shortens `s`, so `len(s) + 1` iterations suffice. -/
def countLoop (substr : GoString) : Nat → GoString → Nat → Nat
  | 0, _, n => n
  | fuel + 1, s, n =>
    let i := Index s substr
    if i = -1 then n else countLoop substr fuel (s.drop (i.toNat + substr.length)) (n + 1)

/-- Function `strings.Count`: the number of non-overlapping instances of
`substr` in `s`; for a single byte it is `bytealg.CountString`. -/
def Count (s substr : GoString) : Nat :=
  match substr with
  | [] => s.length + 1
  | [c] => s.count c
  | _ => countLoop substr (s.length + 1) s 0

/-- Function `strings.explode`, with `n` already known to be negative or
positive: at most `n` one-character strings, the last holding the rest. -/
def explode (s : GoString) (n : Int) : List GoString :=
  let l := s.length
  let n : Nat := if n < 0 ∨ n > (l : Int) then l else n.toNat
  (s.take (n - 1)).map (fun c => [c]) ++ (if n > 0 then [s.drop (n - 1)] else [])

/-- The loop of `strings.genSplit`,
`for i < n { m := Index(s, sep); if m < 0 { break }; a[i] = s[:m+sepSave];
s = s[m+len(sep):]; i++ }; a[i] = s; return a[:i+1]`,
by recursion on the number `n - i` of iterations left. -/
def genSplitLoop (sep : GoString) (sepSave : Nat) : Nat → GoString → List GoString
  | 0, s => [s]
  | k + 1, s =>
    let m := Index s sep
    if m < 0 then [s]
    else s.take (m.toNat + sepSave) :: genSplitLoop sep sepSave k (s.drop (m.toNat + sep.length))

/-- Function `strings.genSplit`.  The bound `n > len(s)+1` never applies to
the count `Count(s, sep) + 1` that `Split` asks for, whichever way the length
is measured. -/
def genSplit (s sep : GoString) (sepSave : Nat) (n : Int) : List GoString :=
  if n = 0 then []
  else if sep = [] then explode s n
  else
    let n : Nat := if n < 0 then Count s sep + 1 else n.toNat
    let n : Nat := if n > s.length + 1 then s.length + 1 else n
    genSplitLoop sep sepSave (n - 1) s

/-- Function `strings.Split`. -/
def Split (s sep : GoString) : List GoString := genSplit s sep 0 (-1)

/-- Function `strings.Join`. -/
def Join (elems : List GoString) (sep : GoString) : GoString :=
  match elems with
  | [] => []
  | [e] => e
  | e :: es => es.foldl (fun b x => b ++ sep ++ x) e

end strings

/-! ## Package `github.com/pkg/errors` -/

/-- A non-nil Go `error`: one returned by a collaborator, or one annotated
with a message by `errors.Wrap`. -/
inductive GoError where
  | external (text : String)
  | withMessage (cause : GoError) (msg : String)
deriving DecidableEq, Repr

/-- Method `Error()`; for a wrapped error `msg + ": " + cause.Error()`. -/
def GoError.Error : GoError → String
  | .external text => text
  | .withMessage cause msg => msg ++ ": " ++ cause.Error

namespace errors

/-- Function `errors.Wrap`: `nil` for a nil error, else the error annotated
with `message`. -/
def Wrap (err : Option GoError) (message : String) : Option GoError :=
  match err with
  | none => none
  | some e => some (GoError.withMessage e message)

end errors

/-! ## Package `flag` of the Go standard library -/

/-- A Go `float64`, restricted to its finite values, each of which is a
rational number. -/
abbrev Float64 := ℚ

/-- A Go `time.Duration`: a number of nanoseconds. -/
abbrev Duration := Int

namespace flag

/-- The state of the command line after `flag.Parse`: for every flag name the
value it was set to on the command line (its last occurrence), or `none` when
the flag does not occur there.  One map for each kind of flag the program
defines. -/
structure CommandLine where
  strings : String → Option GoString
  bools : String → Option Bool
  durations : String → Option Duration
  floats : String → Option Float64

/-- The kinds of flag the program defines. -/
inductive Kind where
  | string | bool | duration | float64
deriving DecidableEq, Repr

/-- Whether flag `name` of kind `k` was set on the command line. -/
def isSet (cl : CommandLine) (name : String) : Kind → Bool
  | .string => (cl.strings name).isSome
  | .bool => (cl.bools name).isSome
  | .duration => (cl.durations name).isSome
  | .float64 => (cl.floats name).isSome

/-- The value behind the pointer returned by `flag.String(name, value, usage)`
once the command line is parsed. -/
def StringFlag (cl : CommandLine) (name : String) (value : GoString) : GoString :=
  (cl.strings name).getD value

/-- The value behind the pointer returned by `flag.Bool`. -/
def BoolFlag (cl : CommandLine) (name : String) (value : Bool) : Bool :=
  (cl.bools name).getD value

/-- The value behind the pointer returned by `flag.Duration`. -/
def DurationFlag (cl : CommandLine) (name : String) (value : Duration) : Duration :=
  (cl.durations name).getD value

/-- The value behind the pointer returned by `flag.Float64`. -/
def Float64Flag (cl : CommandLine) (name : String) (value : Float64) : Float64 :=
  (cl.floats name).getD value

/-- Function `flag.Visit`: calls `fn` for every flag of `defined` that has
been set, in the order of `defined` (lexicographical by name). -/
def Visit {σ : Type} (cl : CommandLine) (defined : List (String × Kind))
    (fn : σ → String → σ) (init : σ) : σ :=
  ((defined.filter (fun d => isSet cl d.1 d.2)).map Prod.fst).foldl fn init

end flag

/-! ## The types of the packages `hospital`, `config`, `starter`, `runner`
that `createRunner` fills in

Only the fields `createRunner` assigns are kept.  A field of type `*string`
is an `Option GoString`; a pointer to a struct literal is the struct. -/

namespace hospital

/-- Type `hospital.PathwayPaths`. -/
structure PathwayPaths where
  Dir : GoString
  Names : List GoString
  ExcludeNames : List GoString
deriving DecidableEq, Repr

/-- Type `hospital.SenderPaths`. -/
structure SenderPaths where
  Output : GoString
  OutputFile : GoString
  MllpDestination : GoString
  MllpKeepAlive : Bool
  MllpKeepAliveInterval : Option Duration
deriving DecidableEq, Repr

end hospital

namespace config

/-- Type `config.DataFiles`. -/
structure DataFiles where
  Nouns : GoString
  DataConfig : GoString
  Procedures : GoString
  Diagnoses : GoString
  Allergies : GoString
  Boys : GoString
  Girls : GoString
  Surnames : GoString
  Ethnicities : GoString
  PatientClass : GoString
  SampleNotesDir : GoString
  ClinicalNoteTypes : GoString
deriving DecidableEq, Repr

end config

namespace hospital

/-- Type `hospital.Paths`. -/
structure Paths where
  LocationsFile : Option GoString
  HardcodedMessagesDir : Option GoString
  Hl7ConfigFile : Option GoString
  HeaderConfigFile : Option GoString
  DoctorsFile : Option GoString
  OrderProfilesFile : Option GoString
  DeletePatientsFromMemory : Bool
  PathwayPaths : PathwayPaths
  SenderPaths : SenderPaths
  DataFiles : config.DataFiles
deriving DecidableEq, Repr

/-- Type `hospital.Config`: the four components `createRunner` reads from
it, each a value of a type `α` this program never looks into. -/
structure Config (α : Type) where
  PathwayParser : α
  PathwayManager : α
  Sender : α
  Clock : α
deriving DecidableEq, Repr

end hospital

namespace starter

/-- Type `starter.PathwayStarter`; `β` is the type `hospital.Hospital`. -/
structure PathwayStarter (α β : Type) where
  Hospital : β
  Parser : α
  PathwayManager : α
  Sender : α
deriving DecidableEq, Repr

end starter

namespace runner

/-- Type `runner.Config`. -/
structure Config (α β : Type) where
  PathwayStarter : starter.PathwayStarter α β
  PathwaysPerHour : Float64
  DashboardURI : GoString
  DashboardAddress : GoString
  DashboardStaticDir : GoString
  MetricsAddress : GoString
  SleepFor : Duration
  Clock : α
deriving DecidableEq, Repr

end runner

/-! ## `cmd/simulator/simulator.go` -/

namespace simulator

open flag (CommandLine)

/-! ### The flags (`var ( ... )`)

Each definition is the value `*name` of the flag variable once `flag.Parse`
has run on the command line `cl`. -/

/-- Flag `-local_path`. -/
def localPath (cl : CommandLine) : GoString :=
  flag.StringFlag cl "local_path" "".toList

/-- Flag `-locations_file`. -/
def locationsFile (cl : CommandLine) : GoString :=
  flag.StringFlag cl "locations_file" "configs/hl7_messages/locations.yml".toList

/-- Flag `-hardcoded_messages_dir`. -/
def hardcodedMessagesDir (cl : CommandLine) : GoString :=
  flag.StringFlag cl "hardcoded_messages_dir" "configs/hardcoded_messages".toList

/-- Flag `-hl7_config_file`. -/
def hl7ConfigFile (cl : CommandLine) : GoString :=
  flag.StringFlag cl "hl7_config_file" "configs/hl7_messages/hl7.yml".toList

/-- Flag `-header_config_file`. -/
def headerConfigFile (cl : CommandLine) : GoString :=
  flag.StringFlag cl "header_config_file" "configs/hl7_messages/header.yml".toList

/-- Flag `-nouns_file`. -/
def nounsFile (cl : CommandLine) : GoString :=
  flag.StringFlag cl "nouns_file" "configs/hl7_messages/third_party/nouns.txt".toList

/-- Flag `-surnames_file`. -/
def surnamesFile (cl : CommandLine) : GoString :=
  flag.StringFlag cl "surnames_file" "configs/hl7_messages/third_party/surnames.txt".toList

/-- Flag `-girls_names`. -/
def girlsHistoricNamesFile (cl : CommandLine) : GoString :=
  flag.StringFlag cl "girls_names" "configs/hl7_messages/third_party/historicname_tcm77-254032-girls.csv".toList

/-- Flag `-boys_names`. -/
def boysHistoricNamesFile (cl : CommandLine) : GoString :=
  flag.StringFlag cl "boys_names" "configs/hl7_messages/third_party/historicname_tcm77-254032-boys.csv".toList

/-- Flag `-data_config_file`. -/
def dataConfigFile (cl : CommandLine) : GoString :=
  flag.StringFlag cl "data_config_file" "configs/hl7_messages/data.yml".toList

/-- Flag `-sample_notes_directory`. -/
def sampleNotesDir (cl : CommandLine) : GoString :=
  flag.StringFlag cl "sample_notes_directory" "configs/hl7_messages/third_party/notes".toList

/-- Flag `-clinical_note_types_file`. -/
def clinicalNoteTypesFile (cl : CommandLine) : GoString :=
  flag.StringFlag cl "clinical_note_types_file" "configs/hl7_messages/third_party/note_types.txt".toList

/-- Flag `-diagnoses_file`. -/
def diagnosesFile (cl : CommandLine) : GoString :=
  flag.StringFlag cl "diagnoses_file" "configs/hl7_messages/diagnoses.csv".toList

/-- Flag `-procedures_file`. -/
def proceduresFile (cl : CommandLine) : GoString :=
  flag.StringFlag cl "procedures_file" "configs/hl7_messages/procedures.csv".toList

/-- Flag `-allergies_file`. -/
def allergiesFile (cl : CommandLine) : GoString :=
  flag.StringFlag cl "allergies_file" "configs/hl7_messages/allergies.csv".toList

/-- Flag `-ethnicity_file`. -/
def ethnicityFile (cl : CommandLine) : GoString :=
  flag.StringFlag cl "ethnicity_file" "configs/hl7_messages/ethnicity.csv".toList

/-- Flag `-patient_class_file`. -/
def patientClassFile (cl : CommandLine) : GoString :=
  flag.StringFlag cl "patient_class_file" "configs/hl7_messages/patient_class.csv".toList

/-- Flag `-doctors_file`. -/
def doctorsFile (cl : CommandLine) : GoString :=
  flag.StringFlag cl "doctors_file" "configs/hl7_messages/doctors.yml".toList

/-- Flag `-order_profile_file`. -/
def orderProfilesFile (cl : CommandLine) : GoString :=
  flag.StringFlag cl "order_profile_file" "configs/hl7_messages/order_profiles.yml".toList

/-- Flag `-log_level`. -/
def logLevel (cl : CommandLine) : GoString :=
  flag.StringFlag cl "log_level" "INFO".toList

/-- Flag `-metrics_listen_address`. -/
def metricsListenAddress (cl : CommandLine) : GoString :=
  flag.StringFlag cl "metrics_listen_address" ":9095".toList

/-- Flag `-hl7_timezone`. -/
def hl7Timezone (cl : CommandLine) : GoString :=
  flag.StringFlag cl "hl7_timezone" "UTC".toList

/-- Flag `-output`. -/
def output (cl : CommandLine) : GoString :=
  flag.StringFlag cl "output" "stdout".toList

/-- Flag `-mllp_destination`. -/
def mllpDestination (cl : CommandLine) : GoString :=
  flag.StringFlag cl "mllp_destination" "".toList

/-- Flag `-output_file`. -/
def outputFile (cl : CommandLine) : GoString :=
  flag.StringFlag cl "output_file" "messages.out".toList

/-- Flag `-pathways_dir`. -/
def pathwaysDir (cl : CommandLine) : GoString :=
  flag.StringFlag cl "pathways_dir" "configs/pathways".toList

/-- Flag `-pathway_names`. -/
def pathwayNames (cl : CommandLine) : GoString :=
  flag.StringFlag cl "pathway_names" "".toList

/-- Flag `-exclude_pathway_names`. -/
def excludePathwayNames (cl : CommandLine) : GoString :=
  flag.StringFlag cl "exclude_pathway_names" "".toList

/-- Flag `-dashboard_uri`. -/
def dashboardURI (cl : CommandLine) : GoString :=
  flag.StringFlag cl "dashboard_uri" "simulated-hospital".toList

/-- Flag `-dashboard_address`. -/
def dashboardAddress (cl : CommandLine) : GoString :=
  flag.StringFlag cl "dashboard_address" ":8000".toList

/-- Flag `-static_dir`. -/
def staticDir (cl : CommandLine) : GoString :=
  flag.StringFlag cl "static_dir" "web/static".toList

/-- Flag `-sleep_for`, default `time.Second`. -/
def sleepFor (cl : CommandLine) : Duration :=
  flag.DurationFlag cl "sleep_for" 1000000000

/-- Flag `-delete_patients_from_memory`. -/
def deletePatientsFromMemory (cl : CommandLine) : Bool :=
  flag.BoolFlag cl "delete_patients_from_memory" false

/-- Flag `-mllp_keep_alive`. -/
def mllpKeepAlive (cl : CommandLine) : Bool :=
  flag.BoolFlag cl "mllp_keep_alive" false

/-- Flag `-mllp_keep_alive_interval`, default `time.Minute`. -/
def mllpKeepAliveInterval (cl : CommandLine) : Duration :=
  flag.DurationFlag cl "mllp_keep_alive_interval" 60000000000

/-- Flag `-pathways_per_hour`. -/
def pathwaysPerHour (cl : CommandLine) : Float64 :=
  flag.Float64Flag cl "pathways_per_hour" 1

/-- The flags the program defines, by name in lexicographical order (the
order in which package `flag` visits them), each with its kind. -/
def definedFlags : List (String × flag.Kind) :=
  [("allergies_file", .string), ("boys_names", .string),
   ("clinical_note_types_file", .string), ("dashboard_address", .string),
   ("dashboard_uri", .string), ("data_config_file", .string),
   ("delete_patients_from_memory", .bool), ("diagnoses_file", .string),
   ("doctors_file", .string), ("ethnicity_file", .string),
   ("exclude_pathway_names", .string), ("girls_names", .string),
   ("hardcoded_messages_dir", .string), ("header_config_file", .string),
   ("hl7_config_file", .string), ("hl7_timezone", .string),
   ("local_path", .string), ("locations_file", .string), ("log_level", .string),
   ("metrics_listen_address", .string), ("mllp_destination", .string),
   ("mllp_keep_alive", .bool), ("mllp_keep_alive_interval", .duration),
   ("nouns_file", .string), ("order_profile_file", .string), ("output", .string),
   ("output_file", .string), ("pathway_names", .string), ("pathways_dir", .string),
   ("pathways_per_hour", .float64), ("patient_class_file", .string),
   ("procedures_file", .string), ("sample_notes_directory", .string),
   ("sleep_for", .duration), ("static_dir", .string), ("surnames_file", .string)]

/-- The type `map[string]bool` of `flagset`: a key that is absent reads as
`false`. -/
abbrev FlagSet := String → Bool

/-- The initial value `make(map[string]bool)` of `flagset`. -/
def flagset0 : FlagSet := fun _ => false

/-- The assignment `flagset[name] = true`. -/
def setFlag (m : FlagSet) (name : String) : FlagSet :=
  fun k => if k = name then true else m k

/-- The first statement of `createRunner`:
`flag.Visit(func(f *flag.Flag) { flagset[f.Name] = true })`, on the
initial `flagset`. -/
def flagset (cl : CommandLine) : FlagSet :=
  flag.Visit cl definedFlags setFlag flagset0

/-- Function `addLocalPathIfNotSet`; the globals it reads, the map `flagset`
and the value `*localPath`, are its first two arguments. -/
def addLocalPathIfNotSet (flagset : FlagSet) (localPath : GoString) (f : GoString)
    (n : String) : GoString :=
  if flagset n then f else path.Join [localPath, f]

/-- Function `addLocalPathIfNotSetAndNotNil`. -/
def addLocalPathIfNotSetAndNotNil (flagset : FlagSet) (localPath : GoString)
    (f : Option GoString) (n : String) : Option GoString :=
  match f with
  | none => none
  | some v => some (addLocalPathIfNotSet flagset localPath v n)

/-- The value `include` of `createRunner`: `nil` (the empty list) unless
`-pathway_names` is not empty. -/
def includeNames (cl : CommandLine) : List GoString :=
  if pathwayNames cl ≠ [] then strings.Split (pathwayNames cl) ",".toList else []

/-- The value `exclude` of `createRunner`. -/
def excludeNames (cl : CommandLine) : List GoString :=
  strings.Split (excludePathwayNames cl) ",".toList

/-- The value `paths` of `createRunner`. -/
def createPaths (cl : CommandLine) : hospital.Paths :=
  let fs := flagset cl
  let lp := localPath cl
  { LocationsFile := addLocalPathIfNotSetAndNotNil fs lp (some (locationsFile cl)) "locations_file"
    HardcodedMessagesDir :=
      addLocalPathIfNotSetAndNotNil fs lp (some (hardcodedMessagesDir cl)) "hardcoded_messages_dir"
    Hl7ConfigFile := addLocalPathIfNotSetAndNotNil fs lp (some (hl7ConfigFile cl)) "hl7_config_file"
    HeaderConfigFile :=
      addLocalPathIfNotSetAndNotNil fs lp (some (headerConfigFile cl)) "header_config_file"
    DoctorsFile := addLocalPathIfNotSetAndNotNil fs lp (some (doctorsFile cl)) "doctors_file"
    OrderProfilesFile :=
      addLocalPathIfNotSetAndNotNil fs lp (some (orderProfilesFile cl)) "order_profile_file"
    DeletePatientsFromMemory := deletePatientsFromMemory cl
    PathwayPaths :=
      { Dir := addLocalPathIfNotSet fs lp (pathwaysDir cl) "pathways_dir"
        Names := includeNames cl
        ExcludeNames := excludeNames cl }
    SenderPaths :=
      { Output := output cl
        OutputFile := outputFile cl
        MllpDestination := mllpDestination cl
        MllpKeepAlive := mllpKeepAlive cl
        MllpKeepAliveInterval := some (mllpKeepAliveInterval cl) }
    DataFiles :=
      { Nouns := addLocalPathIfNotSet fs lp (nounsFile cl) "nouns_file"
        DataConfig := addLocalPathIfNotSet fs lp (dataConfigFile cl) "data_config_file"
        Procedures := addLocalPathIfNotSet fs lp (proceduresFile cl) "procedures_file"
        Diagnoses := addLocalPathIfNotSet fs lp (diagnosesFile cl) "diagnoses_file"
        Allergies := addLocalPathIfNotSet fs lp (allergiesFile cl) "allergies_file"
        Boys := addLocalPathIfNotSet fs lp (boysHistoricNamesFile cl) "boys_names"
        Girls := addLocalPathIfNotSet fs lp (girlsHistoricNamesFile cl) "girls_names"
        Surnames := addLocalPathIfNotSet fs lp (surnamesFile cl) "surnames_file"
        Ethnicities := addLocalPathIfNotSet fs lp (ethnicityFile cl) "ethnicity_file"
        PatientClass := addLocalPathIfNotSet fs lp (patientClassFile cl) "patient_class_file"
        SampleNotesDir := addLocalPathIfNotSet fs lp (sampleNotesDir cl) "sample_notes_directory"
        ClinicalNoteTypes :=
          addLocalPathIfNotSet fs lp (clinicalNoteTypesFile cl) "clinical_note_types_file" } }

/-- The `runner.Config` literal that `createRunner` passes to `runner.New`. -/
def createRunnerConfig {α β : Type} (cl : CommandLine) (config : hospital.Config α) (h : β) :
    runner.Config α β :=
  { PathwayStarter :=
      { Hospital := h
        Parser := config.PathwayParser
        PathwayManager := config.PathwayManager
        Sender := config.Sender }
    PathwaysPerHour := pathwaysPerHour cl
    DashboardURI := dashboardURI cl
    DashboardAddress := dashboardAddress cl
    DashboardStaticDir := addLocalPathIfNotSet (flagset cl) (localPath cl) (staticDir cl) "static_dir"
    MetricsAddress := metricsListenAddress cl
    SleepFor := sleepFor cl
    Clock := config.Clock }

/-- How a call of `hr.Run` ends. -/
inductive RunOutcome where
  | returned
  | panicked
deriving DecidableEq, Repr

/-- The functions of other packages that `main` and `createRunner` call,
with `α` the type of the components of a `hospital.Config`, `β` the type
`hospital.Hospital` and `ρ` the type `runner.Hospital`.  A result
`(value, error)` of which the value is only read when the error is nil is an
`Except`; the result of `runner.New`, which `createRunner` hands on as it is,
is the pair. -/
structure Collaborators (α β ρ : Type) where
  SetLogLevelFromString : GoString → Option GoError
  TimezoneAndLocation : GoString → Option GoError
  DefaultConfig : hospital.Paths → Except GoError (hospital.Config α)
  NewHospital : hospital.Config α → Except GoError β
  New : β → runner.Config α β → Option ρ × Option GoError
  Run : Option ρ → RunOutcome
  Close : Option ρ → Option GoError

/-- A call made by `createRunner`, with its arguments. -/
inductive Call (α β : Type) where
  | DefaultConfig (paths : hospital.Paths)
  | NewHospital (config : hospital.Config α)
  | New (h : β) (config : runner.Config α β)
deriving DecidableEq, Repr

/-- Whether the call is one of `hospital.NewHospital`. -/
def Call.isNewHospital {α β : Type} : Call α β → Bool
  | .NewHospital _ => true
  | _ => false

/-- Whether the call is one of `runner.New`. -/
def Call.isNew {α β : Type} : Call α β → Bool
  | .New _ _ => true
  | _ => false

/-- What `createRunner` did: the calls it made, in order, and the pair it
returned. -/
structure CreateRunnerResult (α β ρ : Type) where
  calls : List (Call α β)
  hr : Option ρ
  err : Option GoError

/-- Function `createRunner`. -/
def createRunner {α β ρ : Type} (env : Collaborators α β ρ) (cl : CommandLine) :
    CreateRunnerResult α β ρ :=
  let paths := createPaths cl
  match env.DefaultConfig paths with
  | .error err =>
    { calls := [.DefaultConfig paths]
      hr := none
      err := errors.Wrap (some err) "cannot create default hospital config" }
  | .ok config =>
    match env.NewHospital config with
    | .error err =>
      { calls := [.DefaultConfig paths, .NewHospital config]
        hr := none
        err := errors.Wrap (some err) "cannot instantiate Hospital" }
    | .ok h =>
      let rc := createRunnerConfig cl config h
      let res := env.New h rc
      { calls := [.DefaultConfig paths, .NewHospital config, .New h rc]
        hr := res.1
        err := res.2 }

/-- What `main` does, as seen from outside: the calls to its collaborators
and their returns. -/
inductive Event (α β ρ : Type) where
  | flagParse
  | onShutdown
  | SetLogLevelFromString (level : GoString) (err : Option GoError)
  | TimezoneAndLocation (tz : GoString) (err : Option GoError)
  | Fatal (msg : String) (err : GoError)
  | randSeed
  | Info (msg : String)
  | createRunnerCall (c : Call α β)
  | createRunnerReturned (hr : Option ρ) (err : Option GoError)
  | RunCalled (hr : Option ρ)
  | RunReturned
  | RunPanicked
  | CloseCalled (hr : Option ρ)
  | Error (msg : String) (err : GoError)
  | cancel

/-- Whether the event is a call of `hr.Run`. -/
def Event.isRun {α β ρ : Type} : Event α β ρ → Bool
  | .RunCalled _ => true
  | _ => false

/-- Whether the event is a call of `hr.Close`. -/
def Event.isClose {α β ρ : Type} : Event α β ρ → Bool
  | .CloseCalled _ => true
  | _ => false

/-- Whether the event is a call of `Fatal`, which logs and then calls
`os.Exit(1)`. -/
def Event.isFatal {α β ρ : Type} : Event α β ρ → Bool
  | .Fatal _ _ => true
  | _ => false

/-- An execution of `main`: the events in order and the exit code of the
process (0 when `main` returns, 1 after `Fatal`, 2 after a panic). -/
structure Execution (α β ρ : Type) where
  trace : List (Event α β ρ)
  exitCode : Nat

/-- The deferred calls of `main` once `hr` exists, in the order they run:
the closure that calls `hr.Close` (and logs its error), then `cancel`. -/
def deferred {α β ρ : Type} (env : Collaborators α β ρ) (hr : Option ρ) : List (Event α β ρ) :=
  [.CloseCalled hr] ++
    (match env.Close hr with
     | some err => [.Error "Error when closing Hospital Runner" err]
     | none => []) ++
    [.cancel]

/-- Function `main`.  `Fatal` ends the process at once: nothing deferred
runs. -/
def main {α β ρ : Type} (env : Collaborators α β ρ) (cl : CommandLine) : Execution α β ρ :=
  let t0 : List (Event α β ρ) := [.flagParse, .onShutdown]
  let logErr := env.SetLogLevelFromString (logLevel cl)
  let t1 := t0 ++ [.SetLogLevelFromString (logLevel cl) logErr]
  match logErr with
  | some err =>
    { trace := t1 ++ [.Fatal "Cannot configure Simulated Hospital logger" err], exitCode := 1 }
  | none =>
    let tzErr := env.TimezoneAndLocation (hl7Timezone cl)
    let t2 := t1 ++ [.TimezoneAndLocation (hl7Timezone cl) tzErr]
    match tzErr with
    | some err =>
      { trace := t2 ++ [.Fatal "Cannot configure HL7 timezone and location" err], exitCode := 1 }
    | none =>
      let res := createRunner env cl
      let t3 := t2 ++ [.randSeed, .Info "Starting Simulated Hospital"] ++
        res.calls.map .createRunnerCall ++ [.createRunnerReturned res.hr res.err]
      match res.err with
      | some err => { trace := t3 ++ [.Fatal "Cannot create Hospital Runner" err], exitCode := 1 }
      | none =>
        match env.Run res.hr with
        | .returned =>
          { trace := t3 ++ [.RunCalled res.hr, .RunReturned] ++ deferred env res.hr, exitCode := 0 }
        | .panicked =>
          { trace := t3 ++ [.RunCalled res.hr, .RunPanicked] ++ deferred env res.hr, exitCode := 2 }

/-- The events of `main` up to the return of `createRunner`, when the two
configuration calls before it succeeded. -/
def startup {α β ρ : Type} (env : Collaborators α β ρ) (cl : CommandLine) :
    List (Event α β ρ) :=
  [.flagParse, .onShutdown, .SetLogLevelFromString (logLevel cl) none,
    .TimezoneAndLocation (hl7Timezone cl) none, .randSeed,
    .Info "Starting Simulated Hospital"] ++
  (createRunner env cl).calls.map .createRunnerCall ++
  [.createRunnerReturned (createRunner env cl).hr (createRunner env cl).err]

/-! ### Command lines and collaborators used as examples -/

/-- The command line without any flag. -/
def noFlags : CommandLine :=
  { strings := fun _ => none, bools := fun _ => none, durations := fun _ => none,
    floats := fun _ => none }

/-- The command line `-local_path=/x`. -/
def onlyLocalPath : CommandLine :=
  { noFlags with strings := fun n => if n = "local_path" then some "/x".toList else none }

/-- The command line `-pathways_per_hour=-1`. -/
def negativeRate : CommandLine :=
  { noFlags with floats := fun n => if n = "pathways_per_hour" then some (-1) else none }

/-- The command line `-pathway_names=a,b -exclude_pathway_names=b`. -/
def someNames : CommandLine :=
  { noFlags with
    strings := fun n =>
      if n = "pathway_names" then some "a,b".toList
      else if n = "exclude_pathway_names" then some "b".toList
      else none }

/-- The command line `-exclude_pathway_names=a,b`. -/
def excludeTwo : CommandLine :=
  { noFlags with
    strings := fun n => if n = "exclude_pathway_names" then some "a,b".toList else none }

/-- Collaborators that all succeed; the opaque values are of type `Unit`. -/
def allSucceed : Collaborators Unit Unit Unit :=
  { SetLogLevelFromString := fun _ => none
    TimezoneAndLocation := fun _ => none
    DefaultConfig := fun _ => .ok ⟨(), (), (), ()⟩
    NewHospital := fun _ => .ok ()
    New := fun _ _ => (some (), none)
    Run := fun _ => .returned
    Close := fun _ => none }

/-- Collaborators of which `hl7.TimezoneAndLocation` fails. -/
def badTimezone : Collaborators Unit Unit Unit :=
  { allSucceed with TimezoneAndLocation := fun _ => some (.external "unknown time zone") }

/-- Collaborators of which `hospital.DefaultConfig` fails. -/
def badConfig : Collaborators Unit Unit Unit :=
  { allSucceed with DefaultConfig := fun _ => .error (.external "cannot read file") }

end simulator

/-! ## Properties -/

/-! ### The buffer of `Clean` -/

namespace path

/-- Writing at index `w` and reading the first `w + 1` entries. -/
theorem take_succ_set {α : Type} (a : List α) (w : Nat) (c : α) (h : w < a.length) :
    (a.set w c).take (w + 1) = a.take w ++ [c] := by
  induction a generalizing w with
  | nil => simp at h
  | cons x a ih =>
    cases w with
    | zero => simp
    | succ w =>
      simp only [List.length_cons, Nat.add_lt_add_iff_right] at h
      simp [ih w h]

/-- One entry more of a list. -/
theorem take_succ_of_getD {α : Type} (s : List α) (w : Nat) (d c : α) (h : w < s.length)
    (hc : s.getD w d = c) : s.take (w + 1) = s.take w ++ [c] := by
  induction s generalizing w with
  | nil => simp at h
  | cons x s ih =>
    cases w with
    | zero => simp at hc; simp [hc]
    | succ w =>
      simp only [List.length_cons, Nat.add_lt_add_iff_right] at h
      simp at hc
      simp [ih w h (by simpa using hc)]

/-- Method `append` adds one byte to the bytes held, as long as the buffer
has room. -/
theorem Rep.append {out : lazybuf} {l : List Char} {n : Nat} (h : Rep out l n)
    (hlt : l.length < n) (c : Char) : Rep (out.append c) (l ++ [c]) n := by
  obtain ⟨hs, hstr, hw, hbuf, hle⟩ := h
  unfold lazybuf.append
  cases hb : out.buf with
  | none =>
    simp only [lazybuf.string, hb] at hstr
    by_cases hc : out.w < out.s.length ∧ out.s.getD out.w zeroByte = c
    · simp only [hc, and_self, ↓reduceIte]
      refine ⟨hs, ?_, by simp [hw], by simp [hb], by simp; omega⟩
      simp only [lazybuf.string, hb]
      rw [take_succ_of_getD _ _ _ _ hc.1 hc.2, hstr]
    · simp only [hc, ↓reduceIte]
      have hwlt : out.w < out.s.length := by omega
      have hlen : (List.take out.w out.s).length = out.w := by
        simp; omega
      refine ⟨hs, ?_, by simp [hw], ?_, by simp; omega⟩
      · simp only [lazybuf.string]
        rw [take_succ_set _ _ _ (by simp; omega), List.take_append_of_le_length (by omega),
          List.take_take, Nat.min_self, hstr]
      · intro a ha
        simp only [Option.some.injEq] at ha
        subst ha
        simp
        omega
  | some a =>
    have ha := hbuf a hb
    simp only [lazybuf.string, hb] at hstr
    refine ⟨hs, ?_, by simp [hw], ?_, by simp; omega⟩
    · simp only [lazybuf.string]
      rw [take_succ_set _ _ _ (by omega), hstr]
    · intro a2 ha2
      simp only [Option.some.injEq] at ha2
      subst ha2
      simp [ha]

/-- Method `index` reads the bytes held. -/
theorem Rep.index {out : lazybuf} {l : List Char} {n : Nat} (h : Rep out l n)
    (i : Nat) (hi : i < l.length) : out.index i = l.getD i zeroByte := by
  obtain ⟨hs, hstr, hw, hbuf, hle⟩ := h
  unfold lazybuf.index
  cases hb : out.buf with
  | none =>
    simp only [lazybuf.string, hb] at hstr
    subst hstr
    simp only [List.getD_eq_getElem?_getD]
    rw [List.getElem?_take_of_lt (by omega)]
  | some a =>
    simp only [lazybuf.string, hb] at hstr
    subst hstr
    simp only [List.getD_eq_getElem?_getD]
    rw [List.getElem?_take_of_lt (by omega)]

/-- Lowering `w` keeps a prefix of the bytes held. -/
theorem Rep.setW {out : lazybuf} {l : List Char} {n : Nat} (h : Rep out l n)
    (k : Nat) (hk : k ≤ l.length) : Rep { out with w := k } (l.take k) n := by
  obtain ⟨hs, hstr, hw, hbuf, hle⟩ := h
  refine ⟨hs, ?_, by simp; omega, hbuf, by simp; omega⟩
  cases hb : out.buf with
  | none =>
    simp only [lazybuf.string, hb] at hstr ⊢
    rw [← hstr, List.take_take]
    congr 1
    omega
  | some a =>
    simp only [lazybuf.string, hb] at hstr ⊢
    rw [← hstr, List.take_take]
    congr 1
    omega

/-! ### `Clean` element by element -/

/-- Joining two elements or more. -/
theorem joinSlash_cons_cons (e e2 : GoString) (es : List GoString) :
    joinSlash (e :: e2 :: es) = e ++ '/' :: joinSlash (e2 :: es) := rfl

/-- Joining with one more element at the end. -/
theorem joinSlash_append_singleton (L : List GoString) (e : GoString) (hL : L ≠ []) :
    joinSlash (L ++ [e]) = joinSlash L ++ '/' :: e := by
  induction L with
  | nil => exact absurd rfl hL
  | cons a L ih =>
    cases L with
    | nil => rfl
    | cons b L =>
      have := ih (by simp)
      simp only [List.cons_append, joinSlash_cons_cons] at this ⊢
      rw [this]
      simp

/-- Non-empty elements join to a non-empty path. -/
theorem joinSlash_eq_nil (L : List GoString) (h : ∀ e ∈ L, e ≠ []) :
    joinSlash L = [] ↔ L = [] := by
  cases L with
  | nil => simp [joinSlash]
  | cons a L =>
    have ha : a ≠ [] := h a (by simp)
    cases L with
    | nil => simp [joinSlash, ha]
    | cons b L => simp [joinSlash_cons_cons]

/-- Every element kept is non-empty. -/
theorem Stack.list_ne_nil {rooted : Bool} {σ : Stack} (hv : σ.Valid rooted) :
    ∀ e ∈ σ.list, e ≠ [] := by
  intro e he
  simp only [Stack.list, List.mem_append, List.mem_replicate] at he
  rcases he with ⟨_, rfl⟩ | he
  · simp
  · exact (hv.2 e he).1

/-- With no element kept the buffer holds the root slash or nothing. -/
theorem render_length_base (rooted : Bool) (σ : Stack) (h : σ.list = []) :
    (render rooted σ).length = if rooted then 1 else 0 := by
  cases rooted <;> simp [render, h, joinSlash]

/-- With an element kept the buffer holds more than the root slash. -/
theorem render_length_gt_base (rooted : Bool) (σ : Stack) (hv : σ.Valid rooted)
    (h : σ.list ≠ []) : (if rooted then 1 else 0) < (render rooted σ).length := by
  have hne : joinSlash σ.list ≠ [] := fun hj =>
    h ((joinSlash_eq_nil _ (Stack.list_ne_nil hv)).1 hj)
  have : 0 < (joinSlash σ.list).length := List.length_pos.2 hne
  cases rooted <;> simp [render] <;> omega

/-- Rendering after one more element is kept. -/
theorem render_push (rooted : Bool) (σ : Stack) (e : GoString) :
    render rooted { σ with elems := σ.elems ++ [e] } =
      render rooted σ ++ (if σ.list = [] then [] else ['/']) ++ e := by
  by_cases h : σ.list = []
  · have h1 : σ.dots = 0 ∧ σ.elems = [] := by
      simpa [Stack.list, List.replicate_eq_nil_iff] using h
    simp [render, Stack.list, h1.1, h1.2, joinSlash]
  · have : ({ σ with elems := σ.elems ++ [e] } : Stack).list = σ.list ++ [e] := by
      simp [Stack.list]
    simp only [render, this, joinSlash_append_singleton _ _ h, h, ↓reduceIte]
    simp

/-- Rendering after one more leading `..` is kept. -/
theorem render_push_dots (σ : Stack) (h : σ.elems = []) :
    render false { σ with dots := σ.dots + 1 } =
      render false σ ++ (if σ.dots = 0 then [] else ['/']) ++ ['.', '.'] := by
  obtain ⟨k, es⟩ := σ
  simp only at h
  subst h
  cases k with
  | zero => simp [render, Stack.list, joinSlash]
  | succ k =>
    have hne : List.replicate (k + 1) ['.', '.'] ≠ [] := by simp [List.replicate_succ]
    have hl : List.replicate (k + 1 + 1) ['.', '.'] =
        List.replicate (k + 1) ['.', '.'] ++ [['.', '.']] := List.replicate_succ' _ _
    simp only [render, Stack.list, List.append_nil, hl, joinSlash_append_singleton _ _ hne]
    simp

/-- The backtracking loop of the `..` case stops at the first index, going
down, that is `dotdot` or holds a slash. -/
theorem backtrack_stop (out : lazybuf) (dd P m : Nat) (hdd : dd ≤ P)
    (hstop : ¬ (P > dd ∧ out.index P ≠ '/'))
    (hgo : ∀ i, 1 ≤ i → i ≤ m → out.index (P + i) ≠ '/') :
    backtrack out dd (P + m) = P := by
  induction m with
  | zero =>
    cases P with
    | zero => rfl
    | succ P =>
      simp only [Nat.add_zero, backtrack]
      rw [if_neg hstop]
  | succ m ih =>
    have h1 : P + (m + 1) = (P + m) + 1 := by omega
    rw [h1, backtrack, if_pos ⟨by omega, by rw [← h1]; exact hgo (m + 1) (by omega) le_rfl⟩]
    exact ih (fun i h1 h2 => hgo i h1 (by omega))

/-- The copy loop appends one element and stops at its end. -/
theorem copyElem_rep (e tail : GoString) (he : '/' ∉ e)
    (ht : tail = [] ∨ tail.head? = some '/') (out : lazybuf) (l : List Char) (n : Nat)
    (h : Rep out l n) (hlen : l.length + e.length ≤ n) :
    (copyElem (e ++ tail) out).1 = tail ∧ Rep (copyElem (e ++ tail) out).2 (l ++ e) n := by
  induction e generalizing out l with
  | nil =>
    rcases ht with rfl | ht
    · simpa [copyElem] using h
    · cases tail with
      | nil => simp at ht
      | cons c t =>
        simp only [List.head?_cons, Option.some.injEq] at ht
        subst ht
        simpa [copyElem] using h
  | cons c e ih =>
    simp only [List.mem_cons, not_or] at he
    have hc : c ≠ '/' := fun h => he.1 h.symm
    simp only [List.length_cons] at hlen
    have hrep := h.append (by omega) c
    have := ih he.2 (out.append c) (l ++ [c]) hrep (by simp; omega)
    simpa [copyElem, hc] using this

/-- The case `/` of the `switch`. -/
theorem cleanStep_slash (rooted : Bool) (t : GoString) (out : lazybuf) (dd : Nat) :
    cleanStep rooted ('/' :: t) out dd = (t, out, dd) := by
  simp [cleanStep]

/-- The case `.` of the `switch`. -/
theorem cleanStep_dot (rooted : Bool) (tail : GoString) (out : lazybuf) (dd : Nat)
    (ht : tail = [] ∨ tail.head? = some '/') :
    cleanStep rooted ('.' :: tail) out dd = (tail, out, dd) := by
  simp [cleanStep, ht]

/-- The case `..` of the `switch`. -/
theorem cleanStep_dotdot (rooted : Bool) (tail : GoString) (out : lazybuf) (dd : Nat)
    (ht : tail = [] ∨ tail.head? = some '/') :
    cleanStep rooted ('.' :: '.' :: tail) out dd =
      if out.w > dd then
        (tail, { out with w := backtrack out dd (out.w - 1) }, dd)
      else if ¬ rooted then
        (tail, ((if out.w > 0 then out.append '/' else out).append '.').append '.',
          (((if out.w > 0 then out.append '/' else out).append '.').append '.').w)
      else (tail, out, dd) := by
  simp [cleanStep, ht]

/-- The default case of the `switch`: reached by every element that is not
empty, `.` or `..`. -/
theorem cleanStep_real (rooted : Bool) (e tail : GoString) (out : lazybuf) (dd : Nat)
    (he : IsReal e) (ht : tail = [] ∨ tail.head? = some '/') :
    cleanStep rooted (e ++ tail) out dd =
      ((copyElem (e ++ tail)
          (if (rooted ∧ out.w ≠ 1) ∨ (¬ rooted ∧ out.w ≠ 0) then out.append '/' else out)).1,
        (copyElem (e ++ tail)
          (if (rooted ∧ out.w ≠ 1) ∨ (¬ rooted ∧ out.w ≠ 0) then out.append '/' else out)).2,
        dd) := by
  obtain ⟨hne, hdot, hdotdot, hslash⟩ := he
  cases e with
  | nil => exact absurd rfl hne
  | cons c e1 =>
    simp only [List.mem_cons, not_or] at hslash
    have hc : c ≠ '/' := fun h => hslash.1 h.symm
    have h2 : ¬ (c = '.' ∧ (e1 ++ tail = [] ∨ (e1 ++ tail).head? = some '/')) := by
      rintro ⟨rfl, h⟩
      cases e1 with
      | nil => exact hdot rfl
      | cons d e2 =>
        simp only [List.cons_append, List.head?_cons, Option.some.injEq, reduceCtorEq,
          false_or] at h
        exact hslash.2 (by simp [h])
    have h3 : ¬ (c = '.' ∧ (e1 ++ tail).head? = some '.' ∧
        ((e1 ++ tail).tail = [] ∨ (e1 ++ tail).tail.head? = some '/')) := by
      rintro ⟨rfl, hh, h⟩
      cases e1 with
      | nil =>
        rcases ht with rfl | ht
        · simp at hh
        · simp [ht] at hh
      | cons d e2 =>
        simp only [List.cons_append, List.head?_cons, Option.some.injEq] at hh
        subst hh
        cases e2 with
        | nil => exact hdotdot rfl
        | cons d2 e3 =>
          simp only [List.cons_append, List.tail_cons, List.head?_cons, Option.some.injEq,
            reduceCtorEq, false_or] at h
          exact hslash.2 (by simp [h])
    simp only [List.cons_append, cleanStep, hc, h2, h3, ↓reduceIte]

/-- The value `dotdot` depends on the leading `..` only. -/
theorem dotdotOf_push (rooted : Bool) (σ : Stack) (es : List GoString) :
    dotdotOf rooted { σ with elems := es } = dotdotOf rooted σ := rfl

/-- With no name kept, `dotdot` is the length of the buffer. -/
theorem render_length_of_elems_nil (rooted : Bool) (σ : Stack) (hv : σ.Valid rooted)
    (h : σ.elems = []) : (render rooted σ).length = dotdotOf rooted σ := by
  cases rooted with
  | true =>
    have hd : σ.dots = 0 := hv.1 rfl
    simp [render, dotdotOf, Stack.list, h, hd, joinSlash]
  | false => simp [render, dotdotOf, Stack.list, h]

/-- Rendering with the last name kept split off. -/
theorem render_pop (rooted : Bool) (σ : Stack) (h : σ.elems ≠ []) :
    render rooted σ =
      render rooted { σ with elems := σ.elems.dropLast } ++
        (if ({ σ with elems := σ.elems.dropLast } : Stack).list = [] then [] else ['/']) ++
        σ.elems.getLast h := by
  have := render_push rooted { σ with elems := σ.elems.dropLast } (σ.elems.getLast h)
  simp only [List.dropLast_append_getLast] at this
  exact this

/-- Removing the last name keeps the elements well formed. -/
theorem valid_pop (rooted : Bool) (σ : Stack) (hv : σ.Valid rooted) :
    ({ σ with elems := σ.elems.dropLast } : Stack).Valid rooted :=
  ⟨hv.1, fun e he => hv.2 e (List.mem_of_mem_dropLast he)⟩

/-- The value `dotdot` never exceeds the length of the buffer. -/
theorem dotdotOf_le (rooted : Bool) (σ : Stack) (hv : σ.Valid rooted) :
    dotdotOf rooted σ ≤ (render rooted σ).length := by
  obtain ⟨k, es⟩ := σ
  induction es using List.reverseRecOn with
  | nil => exact (render_length_of_elems_nil rooted _ hv rfl).ge
  | append_singleton es e ih =>
    have hv2 : (⟨k, es⟩ : Stack).Valid rooted :=
      ⟨hv.1, fun x hx => hv.2 x (by simp at hx ⊢; exact Or.inl hx)⟩
    have := ih hv2
    have hp := render_push rooted ⟨k, es⟩ e
    simp only at hp
    rw [hp]
    simp only [List.length_append]
    have : dotdotOf rooted ⟨k, es ++ [e]⟩ = dotdotOf rooted ⟨k, es⟩ := rfl
    omega

/-- The test `out.w > dotdot` of the `..` case: there is a name to remove. -/
theorem render_length_gt_dotdot (rooted : Bool) (σ : Stack) (hv : σ.Valid rooted) :
    (render rooted σ).length > dotdotOf rooted σ ↔ σ.elems ≠ [] := by
  constructor
  · intro h he
    rw [render_length_of_elems_nil rooted σ hv he] at h
    exact lt_irrefl _ h
  · intro h
    rw [render_pop rooted σ h]
    have h1 := dotdotOf_le rooted _ (valid_pop rooted σ hv)
    have h2 : (σ.elems.getLast h) ≠ [] := (hv.2 _ (List.getLast_mem h)).1
    have h3 : 0 < (σ.elems.getLast h).length := List.length_pos.2 h2
    simp only [List.length_append]
    have : dotdotOf rooted { σ with elems := σ.elems.dropLast } = dotdotOf rooted σ := rfl
    omega

/-- The bytes after the separating slash are bytes of the last name. -/
theorem getD_append_mem (P sep x : List Char) (hsep : sep = [] ∨ sep = ['/']) (i : Nat)
    (h1 : 1 ≤ i) (h2 : i < (sep ++ x).length) :
    (P ++ sep ++ x).getD (P.length + i) zeroByte ∈ x := by
  rw [List.append_assoc, List.getD_eq_getElem?_getD,
    List.getElem?_append_right (by omega)]
  simp only [Nat.add_sub_cancel_left]
  rcases hsep with rfl | rfl
  · simp only [List.nil_append] at h2 ⊢
    rw [List.getElem?_eq_getElem h2]
    exact List.getElem_mem h2
  · simp only [List.singleton_append, List.length_cons] at h2 ⊢
    obtain ⟨j, rfl⟩ : ∃ j, i = j + 1 := ⟨i - 1, by omega⟩
    have hj : j < x.length := by omega
    simp only [List.getElem?_cons_succ]
    rw [List.getElem?_eq_getElem hj]
    exact List.getElem_mem hj

/-- The element `.` leaves the elements kept as they are. -/
theorem step_dot (rooted : Bool) (n : Nat) (tail : GoString) (out : lazybuf) (dd : Nat)
    (σ : Stack) (hinv : Inv rooted n (['.'] ++ tail) out dd σ)
    (ht : tail = [] ∨ tail.head? = some '/') :
    (cleanStep rooted (['.'] ++ tail) out dd).1 = tail ∧
    Inv rooted n tail (cleanStep rooted (['.'] ++ tail) out dd).2.1
      (cleanStep rooted (['.'] ++ tail) out dd).2.2 (processElem rooted σ ['.']) := by
  have hp : processElem rooted σ ['.'] = σ := by simp [processElem]
  rw [hp, show cleanStep rooted (['.'] ++ tail) out dd = (tail, out, dd) from
    cleanStep_dot rooted tail out dd ht]
  refine ⟨rfl, hinv.rep, hinv.dd_eq, hinv.valid, ?_⟩
  have := hinv.room
  simp only [List.singleton_append, List.length_cons] at this
  omega

/-- The element `..` with a name to remove: the buffer is cut back to the
rendering without that name. -/
theorem step_pop (rooted : Bool) (n : Nat) (tail : GoString) (out : lazybuf) (dd : Nat)
    (σ : Stack) (hinv : Inv rooted n (['.', '.'] ++ tail) out dd σ)
    (ht : tail = [] ∨ tail.head? = some '/') (hes : σ.elems ≠ []) :
    (cleanStep rooted (['.', '.'] ++ tail) out dd).1 = tail ∧
    Inv rooted n tail (cleanStep rooted (['.', '.'] ++ tail) out dd).2.1
      (cleanStep rooted (['.', '.'] ++ tail) out dd).2.2 (processElem rooted σ ['.', '.']) := by
  obtain ⟨hrep, hdd, hv, hroom⟩ := hinv
  have hp : processElem rooted σ ['.', '.'] = { σ with elems := σ.elems.dropLast } := by
    simp [processElem, hes]
  have hgt : out.w > dd := by
    rw [hrep.w_eq, hdd]
    exact (render_length_gt_dotdot rooted σ hv).2 hes
  have hv2 := valid_pop rooted σ hv
  have hpop := render_pop rooted σ hes
  have hx : IsReal (σ.elems.getLast hes) := hv.2 _ (List.getLast_mem hes)
  have hxlen : 0 < (σ.elems.getLast hes).length := List.length_pos.2 hx.1
  generalize hσ2 : ({ σ with elems := σ.elems.dropLast } : Stack) = σ2 at hp hv2 hpop
  generalize hxe : σ.elems.getLast hes = x at hpop hx hxlen
  have hdd2 : dotdotOf rooted σ2 = dotdotOf rooted σ := by rw [← hσ2]; rfl
  have hsep : (if σ2.list = [] then ([] : List Char) else ['/']) = [] ∨
      (if σ2.list = [] then ([] : List Char) else ['/']) = ['/'] := by
    by_cases h : σ2.list = [] <;> simp [h]
  generalize hsepe : (if σ2.list = [] then ([] : List Char) else ['/']) = sep at hpop hsep
  have hlen : (render rooted σ).length = (render rooted σ2).length + (sep.length + x.length) := by
    rw [hpop]; simp [List.length_append]
  have hbt : backtrack out dd (out.w - 1) = (render rooted σ2).length := by
    have hw : out.w - 1 = (render rooted σ2).length + (sep.length + x.length - 1) := by
      rw [hrep.w_eq, hlen]; omega
    rw [hw]
    apply backtrack_stop
    · rw [hdd, ← hdd2]; exact dotdotOf_le rooted σ2 hv2
    · rintro ⟨h1, h2⟩
      by_cases hl : σ2.list = []
      · have hel : σ2.elems = [] := by
          have := hl
          simp only [Stack.list, List.append_eq_nil] at this
          exact this.2
        rw [render_length_of_elems_nil rooted σ2 hv2 hel, hdd2, ← hdd] at h1
        exact lt_irrefl _ h1
      · apply h2
        rw [hrep.index _ (by omega), hpop]
        have : sep = ['/'] := by rw [← hsepe]; simp [hl]
        subst this
        rw [List.append_assoc, List.getD_eq_getElem?_getD,
          List.getElem?_append_right (le_refl _)]
        simp
    · intro i hi1 hi2
      rw [hrep.index _ (by omega), hpop]
      intro hc
      have hmem := getD_append_mem (render rooted σ2) sep x hsep i hi1
        (by simp [List.length_append]; omega)
      rw [hc] at hmem
      exact hx.2.2.2 hmem
  rw [hp, show cleanStep rooted (['.', '.'] ++ tail) out dd =
      (tail, { out with w := backtrack out dd (out.w - 1) }, dd) by
    rw [show (['.', '.'] ++ tail) = '.' :: '.' :: tail from rfl,
      cleanStep_dotdot rooted tail out dd ht, if_pos hgt]]
  refine ⟨rfl, ?_, ?_, hv2, ?_⟩
  · simp only
    rw [hbt]
    have := hrep.setW (render rooted σ2).length (by omega)
    rw [hpop, List.append_assoc, List.take_left'] at this
    · exact this
    · rfl
  · simp only
    rw [hdd, hdd2]
  · simp only [List.cons_append, List.nil_append, List.length_cons] at hroom
    omega

/-- The element `..` at the root of a rooted path changes nothing. -/
theorem step_noop (n : Nat) (tail : GoString) (out : lazybuf) (dd : Nat)
    (σ : Stack) (hinv : Inv true n (['.', '.'] ++ tail) out dd σ)
    (ht : tail = [] ∨ tail.head? = some '/') (hes : σ.elems = []) :
    (cleanStep true (['.', '.'] ++ tail) out dd).1 = tail ∧
    Inv true n tail (cleanStep true (['.', '.'] ++ tail) out dd).2.1
      (cleanStep true (['.', '.'] ++ tail) out dd).2.2 (processElem true σ ['.', '.']) := by
  obtain ⟨hrep, hdd, hv, hroom⟩ := hinv
  have hp : processElem true σ ['.', '.'] = σ := by simp [processElem, hes]
  have hngt : ¬ out.w > dd := by
    rw [hrep.w_eq, hdd, render_length_of_elems_nil true σ hv hes]
    exact lt_irrefl _
  rw [hp, show cleanStep true (['.', '.'] ++ tail) out dd = (tail, out, dd) by
    rw [show (['.', '.'] ++ tail) = '.' :: '.' :: tail from rfl,
      cleanStep_dotdot true tail out dd ht, if_neg hngt]
    simp]
  refine ⟨rfl, hrep, hdd, hv, ?_⟩
  simp only [List.cons_append, List.nil_append, List.length_cons] at hroom
  omega

/-- The element `..` with no name to remove, in a path that is not rooted,
is appended and `dotdot` moves to the end of the buffer. -/
theorem step_updots (n : Nat) (tail : GoString) (out : lazybuf) (dd : Nat)
    (σ : Stack) (hinv : Inv false n (['.', '.'] ++ tail) out dd σ)
    (hstrict : (render false σ).length + (['.', '.'] ++ tail).length < n ∨ σ.list = [])
    (ht : tail = [] ∨ tail.head? = some '/') (hes : σ.elems = []) :
    (cleanStep false (['.', '.'] ++ tail) out dd).1 = tail ∧
    Inv false n tail (cleanStep false (['.', '.'] ++ tail) out dd).2.1
      (cleanStep false (['.', '.'] ++ tail) out dd).2.2 (processElem false σ ['.', '.']) := by
  obtain ⟨hrep, hdd, hv, hroom⟩ := hinv
  have hp : processElem false σ ['.', '.'] = { σ with dots := σ.dots + 1 } := by
    simp [processElem, hes]
  have hngt : ¬ out.w > dd := by
    rw [hrep.w_eq, hdd, render_length_of_elems_nil false σ hv hes]
    exact lt_irrefl _
  have hv2 : ({ σ with dots := σ.dots + 1 } : Stack).Valid false :=
    ⟨fun h => by simp at h, hv.2⟩
  have hlist : σ.list = [] ↔ σ.dots = 0 := by
    simp [Stack.list, hes, List.replicate_eq_nil_iff]
  simp only [List.cons_append, List.nil_append, List.length_cons] at hroom hstrict
  have hrender := render_push_dots σ hes
  have hrep2 : Rep (((if out.w > 0 then out.append '/' else out).append '.').append '.')
      (render false { σ with dots := σ.dots + 1 }) n := by
    rw [hrender]
    by_cases hd : σ.dots = 0
    · have hw : ¬ out.w > 0 := by
        rw [hrep.w_eq, render_length_base false σ (hlist.2 hd)]
        simp
      rw [if_neg hw, if_pos hd]
      have h1 := hrep.append (by omega) '.'
      have h2 := h1.append (by simp; omega) '.'
      simpa using h2
    · have hw : out.w > 0 := by
        rw [hrep.w_eq]
        have := render_length_gt_base false σ hv (fun h => hd (hlist.1 h))
        simpa using this
      have hs : (render false σ).length + (tail.length + 1 + 1) < n := by
        rcases hstrict with h | h
        · exact h
        · exact absurd (hlist.1 h) hd
      rw [if_pos hw, if_neg hd]
      have h0 := hrep.append (by omega) '/'
      have h1 := h0.append (by simp; omega) '.'
      have h2 := h1.append (by simp; omega) '.'
      simpa using h2
  rw [hp, show cleanStep false (['.', '.'] ++ tail) out dd =
      (tail, ((if out.w > 0 then out.append '/' else out).append '.').append '.',
        (((if out.w > 0 then out.append '/' else out).append '.').append '.').w) by
    rw [show (['.', '.'] ++ tail) = '.' :: '.' :: tail from rfl,
      cleanStep_dotdot false tail out dd ht, if_neg hngt]
    simp]
  refine ⟨rfl, hrep2, ?_, hv2, ?_⟩
  · simp only
    rw [hrep2.w_eq, render_length_of_elems_nil false _ hv2 hes]
  · have := hrep2.le
    rw [hrender] at this ⊢
    simp only [List.length_append, List.length_cons, List.length_nil] at this ⊢
    by_cases hd : σ.dots = 0
    · simp only [hd, ↓reduceIte, List.length_nil] at this ⊢
      omega
    · simp only [hd, ↓reduceIte, List.length_cons, List.length_nil] at this ⊢
      rcases hstrict with h | h
      · omega
      · exact absurd (hlist.1 h) hd

/-- Any other element is appended, after a slash when the buffer already
holds an element. -/
theorem step_real (rooted : Bool) (n : Nat) (e tail : GoString) (out : lazybuf) (dd : Nat)
    (σ : Stack) (hinv : Inv rooted n (e ++ tail) out dd σ)
    (hstrict : (render rooted σ).length + (e ++ tail).length < n ∨ σ.list = [])
    (he : IsReal e) (ht : tail = [] ∨ tail.head? = some '/') :
    (cleanStep rooted (e ++ tail) out dd).1 = tail ∧
    Inv rooted n tail (cleanStep rooted (e ++ tail) out dd).2.1
      (cleanStep rooted (e ++ tail) out dd).2.2 (processElem rooted σ e) := by
  obtain ⟨hrep, hdd, hv, hroom⟩ := hinv
  have hp : processElem rooted σ e = { σ with elems := σ.elems ++ [e] } := by
    simp [processElem, he.1, he.2.1, he.2.2.1]
  have hv2 : ({ σ with elems := σ.elems ++ [e] } : Stack).Valid rooted := by
    refine ⟨hv.1, fun x hx => ?_⟩
    simp only [List.mem_append, List.mem_singleton] at hx
    rcases hx with hx | rfl
    · exact hv.2 x hx
    · exact he
  have hcond : ((rooted = true ∧ out.w ≠ 1) ∨ (¬ rooted = true ∧ out.w ≠ 0)) ↔ σ.list ≠ [] := by
    rw [hrep.w_eq]
    by_cases hl : σ.list = []
    · have hb := render_length_base rooted σ hl
      cases rooted
      · simp only [Bool.false_eq_true, ↓reduceIte] at hb
        simp [hb, hl]
      · simp only [↓reduceIte] at hb
        simp [hb, hl]
    · have hb := render_length_gt_base rooted σ hv hl
      cases rooted
      · simp only [Bool.false_eq_true, ↓reduceIte] at hb
        simp only [Bool.false_eq_true, false_and, not_false_eq_true, true_and, false_or, ne_eq,
          hl, iff_true]
        omega
      · simp only [↓reduceIte] at hb
        simp only [true_and, not_true_eq_false, false_and, or_false, ne_eq, hl,
          not_false_eq_true, iff_true]
        omega
  simp only [List.length_append] at hroom hstrict
  have hrender := render_push rooted σ e
  have hrep1 : Rep (if (rooted = true ∧ out.w ≠ 1) ∨ (¬ rooted = true ∧ out.w ≠ 0)
      then out.append '/' else out)
      (render rooted σ ++ (if σ.list = [] then [] else ['/'])) n := by
    by_cases hl : σ.list = []
    · rw [if_neg (fun h => hcond.1 h hl), if_pos hl]
      simpa using hrep
    · rw [if_pos (hcond.2 hl), if_neg hl]
      have hs : (render rooted σ).length + (e.length + tail.length) < n := by
        rcases hstrict with h | h
        · exact h
        · exact absurd h hl
      exact hrep.append (by omega) '/'
  have hroom2 : (render rooted σ ++ (if σ.list = [] then [] else ['/'])).length +
      e.length + tail.length ≤ n := by
    by_cases hl : σ.list = []
    · simp only [hl, ↓reduceIte, List.append_nil]
      omega
    · simp only [hl, ↓reduceIte, List.length_append, List.length_cons, List.length_nil]
      rcases hstrict with h | h
      · omega
      · exact absurd h hl
  have hcopy := copyElem_rep e tail he.2.2.2 ht _ _ n hrep1 (by omega)
  rw [hp, cleanStep_real rooted e tail out dd he ht]
  refine ⟨hcopy.1, ?_, hdd, hv2, ?_⟩
  · rw [hrender]
    exact hcopy.2
  · rw [hrender]
    simp only [List.length_append] at hroom2 ⊢
    omega

/-- One element of the input, read by one iteration of the loop: the
elements kept change as `processElem` says. -/
theorem step_elem (rooted : Bool) (n : Nat) (e tail : GoString) (out : lazybuf) (dd : Nat)
    (σ : Stack) (hinv : Inv rooted n (e ++ tail) out dd σ)
    (hstrict : (render rooted σ).length + (e ++ tail).length < n ∨ σ.list = [])
    (hne : e ≠ []) (hsl : '/' ∉ e) (ht : tail = [] ∨ tail.head? = some '/') :
    (cleanStep rooted (e ++ tail) out dd).1 = tail ∧
    Inv rooted n tail (cleanStep rooted (e ++ tail) out dd).2.1
      (cleanStep rooted (e ++ tail) out dd).2.2 (processElem rooted σ e) := by
  by_cases h1 : e = ['.']
  · subst h1
    exact step_dot rooted n tail out dd σ hinv ht
  · by_cases h2 : e = ['.', '.']
    · subst h2
      by_cases hes : σ.elems = []
      · cases rooted with
        | true => exact step_noop n tail out dd σ hinv ht hes
        | false => exact step_updots n tail out dd σ hinv hstrict ht hes
      · exact step_pop rooted n tail out dd σ hinv ht hes
    · exact step_real rooted n e tail out dd σ hinv hstrict ⟨hne, h1, h2, hsl⟩ ht

/-- The loop ends when nothing is left to read. -/
theorem cleanLoop_nil (rooted : Bool) (fuel : Nat) (out : lazybuf) (dd : Nat) :
    cleanLoop rooted fuel [] out dd = out := by
  cases fuel <;> rfl

/-- One iteration of the loop. -/
theorem cleanLoop_cons (rooted : Bool) (fuel : Nat) (c : Char) (t : GoString) (out : lazybuf)
    (dd : Nat) :
    cleanLoop rooted (fuel + 1) (c :: t) out dd =
      cleanLoop rooted fuel (cleanStep rooted (c :: t) out dd).1
        (cleanStep rooted (c :: t) out dd).2.1 (cleanStep rooted (c :: t) out dd).2.2 := rfl

/-- The empty element is dropped. -/
theorem processElem_nil (rooted : Bool) (σ : Stack) : processElem rooted σ [] = σ := by
  simp [processElem]

/-- The loop of `Clean` on the elements `L` joined by slashes, with at least
as much fuel as bytes to read: the buffer ends up holding the rendering of
the elements kept after `processElem` has seen every element of `L`. -/
theorem cleanLoop_elems (rooted : Bool) (n : Nat) (L : List GoString)
    (hL : ∀ e ∈ L, '/' ∉ e) (fuel : Nat) (out : lazybuf) (dd : Nat) (σ : Stack)
    (hfuel : (joinSlash L).length ≤ fuel)
    (hinv : Inv rooted n (joinSlash L) out dd σ)
    (hstrict : (render rooted σ).length + (joinSlash L).length < n ∨ σ.list = []) :
    Rep (cleanLoop rooted fuel (joinSlash L) out dd)
      (render rooted (L.foldl (processElem rooted) σ)) n ∧
    (L.foldl (processElem rooted) σ).Valid rooted := by
  induction L generalizing fuel out dd σ with
  | nil =>
    simp only [joinSlash, cleanLoop_nil, List.foldl_nil]
    exact ⟨hinv.rep, hinv.valid⟩
  | cons e L ih =>
    have he : '/' ∉ e := hL e (by simp)
    have hL2 : ∀ x ∈ L, '/' ∉ x := fun x hx => hL x (by simp [hx])
    cases L with
    | nil =>
      simp only [joinSlash, List.foldl_cons, List.foldl_nil] at hfuel hinv hstrict ⊢
      by_cases hne : e = []
      · subst hne
        rw [cleanLoop_nil, processElem_nil]
        exact ⟨hinv.rep, hinv.valid⟩
      · obtain ⟨c, t, rfl⟩ := List.exists_cons_of_ne_nil hne
        obtain ⟨f, rfl⟩ : ∃ f, fuel = f + 1 := ⟨fuel - 1, by simp at hfuel; omega⟩
        have hstep := step_elem rooted n (c :: t) [] out dd σ (by simpa using hinv)
          (by simpa using hstrict) hne he (Or.inl rfl)
        simp only [List.append_nil] at hstep
        rw [cleanLoop_cons, hstep.1, cleanLoop_nil]
        exact ⟨hstep.2.rep, hstep.2.valid⟩
    | cons e2 L =>
      rw [joinSlash_cons_cons] at hfuel hinv hstrict ⊢
      simp only [List.foldl_cons] at ih ⊢
      have hroom := hinv.room
      simp only [List.length_append, List.length_cons] at hfuel hroom
      by_cases hne : e = []
      · subst hne
        obtain ⟨f, rfl⟩ : ∃ f, fuel = f + 1 := ⟨fuel - 1, by simp at hfuel; omega⟩
        simp only [List.nil_append, List.length_nil] at hfuel hroom ⊢
        rw [cleanLoop_cons, cleanStep_slash, processElem_nil]
        apply ih hL2 f out dd σ (by omega)
        · exact ⟨hinv.rep, hinv.dd_eq, hinv.valid, by omega⟩
        · exact Or.inl (by omega)
      · obtain ⟨c, t, rfl⟩ := List.exists_cons_of_ne_nil hne
        simp only [List.length_cons] at hfuel hroom
        obtain ⟨f, rfl⟩ : ∃ f, fuel = f + 2 := ⟨fuel - 2, by omega⟩
        have hstep := step_elem rooted n (c :: t) ('/' :: joinSlash (e2 :: L)) out dd σ hinv
          hstrict hne he (Or.inr rfl)
        rw [show c :: t ++ '/' :: joinSlash (e2 :: L) =
          c :: (t ++ '/' :: joinSlash (e2 :: L)) from rfl] at hstep ⊢
        rw [cleanLoop_cons, hstep.1, cleanLoop_cons, cleanStep_slash]
        have hroom2 := hstep.2.room
        simp only [List.length_cons] at hroom2
        apply ih hL2 f _ _ _ (by omega)
        · exact ⟨hstep.2.rep, hstep.2.dd_eq, hstep.2.valid, by omega⟩
        · exact Or.inl (by omega)

/-- The buffer before the loop, for an input that is not rooted. -/
theorem rep_init (p : GoString) : Rep { s := p, buf := none, w := 0 } [] p.length :=
  ⟨rfl, by simp [lazybuf.string], rfl, by simp, by simp⟩

/-- `Clean` of a rooted path, given by its elements after the root slash. -/
theorem Clean_rooted (L : List GoString) (hL : ∀ e ∈ L, '/' ∉ e) :
    Clean ('/' :: joinSlash L) = render true (L.foldl (processElem true) ⟨0, []⟩) ∧
    (L.foldl (processElem true) ⟨0, []⟩).Valid true := by
  have hrep0 := (rep_init ('/' :: joinSlash L)).append (by simp) '/'
  simp only [List.nil_append] at hrep0
  have hinv : Inv true ('/' :: joinSlash L).length (joinSlash L)
      (({ s := '/' :: joinSlash L, buf := none, w := 0 } : lazybuf).append '/') 1 ⟨0, []⟩ :=
    ⟨by simpa [render, Stack.list, joinSlash] using hrep0, rfl,
      ⟨fun _ => rfl, by simp⟩, by simp [render, Stack.list, joinSlash]; omega⟩
  have h := cleanLoop_elems true _ L hL ('/' :: joinSlash L).length _ 1 ⟨0, []⟩
    (by simp) hinv (Or.inr (by simp [Stack.list]))
  refine ⟨?_, h.2⟩
  have hw := h.1.w_eq
  have hpos : 0 < (render true (L.foldl (processElem true) ⟨0, []⟩)).length := by
    simp [render]
  simp only [Clean, List.head?_cons, decide_True, ↓reduceIte, List.tail_cons,
    reduceCtorEq]
  rw [if_neg (by omega)]
  exact h.1.str

/-- `Clean` of a path that is not rooted, given by its elements. -/
theorem Clean_relative (L : List GoString) (hL : ∀ e ∈ L, '/' ∉ e)
    (hne : joinSlash L ≠ []) (hhead : (joinSlash L).head? ≠ some '/') :
    Clean (joinSlash L) = renderFinal false (L.foldl (processElem false) ⟨0, []⟩) ∧
    (L.foldl (processElem false) ⟨0, []⟩).Valid false := by
  have hinv : Inv false (joinSlash L).length (joinSlash L)
      { s := joinSlash L, buf := none, w := 0 } 0 ⟨0, []⟩ :=
    ⟨by simpa [render, Stack.list, joinSlash] using rep_init (joinSlash L), rfl,
      ⟨fun h => by simp at h, by simp⟩, by simp [render, Stack.list, joinSlash]⟩
  have h := cleanLoop_elems false _ L hL (joinSlash L).length _ 0 ⟨0, []⟩
    le_rfl hinv (Or.inr (by simp [Stack.list]))
  refine ⟨?_, h.2⟩
  have hw := h.1.w_eq
  have hr : (decide ((joinSlash L).head? = some '/')) = false := by simpa using hhead
  simp only [Clean, hne, ↓reduceIte, hr, Bool.false_eq_true, renderFinal]
  by_cases h0 : render false (L.foldl (processElem false) ⟨0, []⟩) = []
  · rw [if_pos (by rw [hw, h0]; rfl), if_pos h0]
  · rw [if_neg (by rw [hw]; exact fun hh => h0 (List.length_eq_zero.1 hh)), if_neg h0]
    exact h.1.str

/-- A path has at least one element. -/
theorem elements_ne_nil (p : GoString) : elements p ≠ [] := by
  induction p with
  | nil => simp [elements]
  | cons c t ih =>
    unfold elements
    split
    · simp
    · split <;> simp

/-- A path is its elements joined by slashes. -/
theorem joinSlash_elements (p : GoString) : joinSlash (elements p) = p := by
  induction p with
  | nil => rfl
  | cons c t ih =>
    unfold elements
    by_cases hc : c = '/'
    · subst hc
      obtain ⟨e, es, hes⟩ := List.exists_cons_of_ne_nil (elements_ne_nil t)
      simp only [↓reduceIte, hes, joinSlash_cons_cons, List.nil_append]
      rw [← hes, ih]
    · simp only [hc, ↓reduceIte]
      obtain ⟨e, es, hes⟩ := List.exists_cons_of_ne_nil (elements_ne_nil t)
      rw [hes] at ih
      simp only [hes]
      cases es with
      | nil =>
        simp only [joinSlash] at ih ⊢
        rw [ih]
      | cons e2 es =>
        rw [joinSlash_cons_cons] at ih ⊢
        rw [← ih]
        rfl

/-- No element holds a slash. -/
theorem elements_no_slash (p : GoString) : ∀ e ∈ elements p, '/' ∉ e := by
  induction p with
  | nil => simp [elements]
  | cons c t ih =>
    unfold elements
    by_cases hc : c = '/'
    · subst hc
      simp only [↓reduceIte, List.mem_cons]
      rintro e (rfl | he)
      · simp
      · exact ih e he
    · simp only [hc, ↓reduceIte]
      obtain ⟨e, es, hes⟩ := List.exists_cons_of_ne_nil (elements_ne_nil t)
      rw [hes] at ih
      simp only [hes, List.mem_cons]
      rintro x (rfl | hx)
      · have := ih e (by simp)
        simp only [List.mem_cons, not_or]
        exact ⟨fun h => hc h.symm, this⟩
      · exact ih x (by simp [hx])

/-- The full description of `Clean`: on every path the byte loop computes
what the reading element by element says. -/
theorem Clean_eq_cleanByElements (p : GoString) : Clean p = cleanByElements p := by
  cases p with
  | nil => rfl
  | cons c t =>
    by_cases hc : c = '/'
    · subst hc
      have h := (Clean_rooted (elements t) (elements_no_slash t)).1
      rw [joinSlash_elements] at h
      rw [h]
      simp [cleanByElements, renderFinal, render]
    · have hne : joinSlash (elements (c :: t)) ≠ [] := by
        rw [joinSlash_elements]; simp
      have hhead : (joinSlash (elements (c :: t))).head? ≠ some '/' := by
        rw [joinSlash_elements]; simpa using hc
      have h := (Clean_relative (elements (c :: t)) (elements_no_slash _) hne hhead).1
      rw [joinSlash_elements] at h
      rw [h]
      simp [cleanByElements, hc]

/-- The copy loop returns a suffix of its input. -/
theorem copyElem_length (rest : GoString) (out : lazybuf) :
    (copyElem rest out).1.length ≤ rest.length := by
  induction rest generalizing out with
  | nil => simp [copyElem]
  | cons c t ih =>
    unfold copyElem
    split
    · simp
    · exact Nat.le_succ_of_le (ih _)

/-- Every iteration of the loop reads at least one byte. -/
theorem cleanStep_length (rooted : Bool) (c : Char) (t : GoString) (out : lazybuf) (dd : Nat) :
    (cleanStep rooted (c :: t) out dd).1.length ≤ t.length := by
  unfold cleanStep
  simp only
  split
  · simp
  · split
    · simp
    · split
      · have : t.tail.length ≤ t.length := by simp
        split
        · exact this
        · split <;> exact this
      · rename_i h1 _ _
        have := copyElem_length t
          ((if (rooted = true ∧ out.w ≠ 1) ∨ (¬ rooted = true ∧ out.w ≠ 0)
            then out.append '/' else out).append c)
        simpa [copyElem, h1] using this

/-- One unit of fuel more than bytes to read changes nothing. -/
theorem cleanLoop_succ (rooted : Bool) (fuel : Nat) (rest : GoString) (out : lazybuf)
    (dd : Nat) (h : rest.length ≤ fuel) :
    cleanLoop rooted (fuel + 1) rest out dd = cleanLoop rooted fuel rest out dd := by
  induction fuel generalizing rest out dd with
  | zero =>
    have : rest = [] := List.length_eq_zero.1 (by omega)
    subst this
    rfl
  | succ fuel ih =>
    cases rest with
    | nil => rfl
    | cons c t =>
      rw [cleanLoop_cons, cleanLoop_cons]
      apply ih
      have := cleanStep_length rooted c t out dd
      simp only [List.length_cons] at h
      omega

/-- The loop of `Clean` needs no more fuel than there are bytes to read:
with more, the result is the same. -/
theorem cleanLoop_fuel (rooted : Bool) (fuel : Nat) (rest : GoString) (out : lazybuf)
    (dd : Nat) (h : rest.length ≤ fuel) :
    cleanLoop rooted fuel rest out dd = cleanLoop rooted rest.length rest out dd := by
  induction fuel with
  | zero =>
    have : rest.length = 0 := by omega
    rw [this]
  | succ fuel ih =>
    by_cases hlt : rest.length ≤ fuel
    · rw [cleanLoop_succ rooted fuel rest out dd hlt, ih hlt]
    · have : rest.length = fuel + 1 := by omega
      rw [this]

/-- Joining two lists of elements. -/
theorem joinSlash_append (A B : List GoString) (hA : A ≠ []) (hB : B ≠ []) :
    joinSlash (A ++ B) = joinSlash A ++ '/' :: joinSlash B := by
  induction A with
  | nil => exact absurd rfl hA
  | cons a A ih =>
    cases A with
    | nil =>
      obtain ⟨b, B, rfl⟩ := List.exists_cons_of_ne_nil hB
      rfl
    | cons a2 A =>
      have := ih (by simp)
      simp only [List.cons_append] at this ⊢
      rw [joinSlash_cons_cons, this, joinSlash_cons_cons]
      simp

/-- Names are kept one after the other. -/
theorem foldl_real (rooted : Bool) (σ : Stack) (es : List GoString)
    (h : ∀ e ∈ es, IsReal e) :
    es.foldl (processElem rooted) σ = ⟨σ.dots, σ.elems ++ es⟩ := by
  induction es generalizing σ with
  | nil => simp
  | cons e es ih =>
    have he : IsReal e := h e (by simp)
    have hp : processElem rooted σ e = ⟨σ.dots, σ.elems ++ [e]⟩ := by
      simp [processElem, he.1, he.2.1, he.2.2.1]
    rw [List.foldl_cons, hp, ih _ (fun x hx => h x (by simp [hx]))]
    simp

/-- Leading `..` elements of a path that is not rooted are kept. -/
theorem foldl_dots (k j : Nat) :
    (List.replicate k ['.', '.']).foldl (processElem false) ⟨j, []⟩ = ⟨j + k, []⟩ := by
  induction k generalizing j with
  | zero => rfl
  | succ k ih =>
    have hp : processElem false ⟨j, []⟩ ['.', '.'] = ⟨j + 1, []⟩ := by
      simp [processElem]
    rw [List.replicate_succ, List.foldl_cons, hp, ih]
    congr 1
    omega

/-- The elements kept are read back as themselves. -/
theorem foldl_list (rooted : Bool) (σ : Stack) (hv : σ.Valid rooted) (es : List GoString)
    (hes : ∀ e ∈ es, IsReal e) :
    (σ.list ++ es).foldl (processElem rooted) ⟨0, []⟩ = ⟨σ.dots, σ.elems ++ es⟩ := by
  have hall : ∀ e ∈ σ.elems ++ es, IsReal e := by
    intro e he
    rcases List.mem_append.1 he with h | h
    · exact hv.2 e h
    · exact hes e h
  cases rooted with
  | true =>
    have hd : σ.dots = 0 := hv.1 rfl
    simp only [Stack.list, hd, List.replicate_zero, List.nil_append]
    rw [foldl_real true _ _ hall]
    simp
  | false =>
    simp only [Stack.list, List.append_assoc, List.foldl_append]
    rw [foldl_dots, ← List.foldl_append, foldl_real false _ _ hall]
    simp

/-- No element kept holds a slash. -/
theorem list_no_slash (rooted : Bool) (σ : Stack) (hv : σ.Valid rooted) :
    ∀ e ∈ σ.list, '/' ∉ e := by
  intro e he
  simp only [Stack.list, List.mem_append, List.mem_replicate] at he
  rcases he with ⟨_, rfl⟩ | he
  · decide
  · exact (hv.2 e he).2.2.2

/-- A path starts with the first byte of its first element. -/
theorem head_joinSlash (e : GoString) (L : List GoString) (he : e ≠ []) :
    (joinSlash (e :: L)).head? = e.head? := by
  obtain ⟨c, t, rfl⟩ := List.exists_cons_of_ne_nil he
  cases L <;> rfl

/-- A rooted path that `Clean` leaves as it is, is the rendering of
well-formed elements. -/
theorem exists_stack_rooted (t : GoString) (hc : Clean ('/' :: t) = '/' :: t) :
    ∃ σ : Stack, σ.Valid true ∧ '/' :: t = render true σ := by
  have h := Clean_rooted (elements t) (elements_no_slash t)
  rw [joinSlash_elements, hc] at h
  exact ⟨_, h.2, h.1⟩

/-- A path that is not rooted, is not `.` and that `Clean` leaves as it is,
is the rendering of well-formed elements. -/
theorem exists_stack_relative (p : GoString) (hne : p ≠ []) (hhead : p.head? ≠ some '/')
    (hdot : p ≠ ['.']) (hc : Clean p = p) :
    ∃ σ : Stack, σ.Valid false ∧ p = render false σ := by
  have hne2 : joinSlash (elements p) ≠ [] := by
    rw [joinSlash_elements]; exact hne
  have hhead2 : (joinSlash (elements p)).head? ≠ some '/' := by
    rw [joinSlash_elements]; exact hhead
  have h := Clean_relative (elements p) (elements_no_slash _) hne2 hhead2
  rw [joinSlash_elements, hc] at h
  refine ⟨_, h.2, ?_⟩
  have h1 := h.1
  unfold renderFinal at h1
  split at h1
  · exact absurd h1 hdot
  · exact h1

/-- `Clean` leaves alone a path made of well-formed elements followed by
names. -/
theorem Clean_render_append (rooted : Bool) (σ : Stack) (hv : σ.Valid rooted)
    (hl : σ.list ≠ []) (es : List GoString) (hes : ∀ e ∈ es, IsReal e) (hne : es ≠ []) :
    Clean (render rooted σ ++ '/' :: joinSlash es) = render rooted σ ++ '/' :: joinSlash es := by
  have hsl : ∀ e ∈ σ.list ++ es, '/' ∉ e := by
    intro e he
    rcases List.mem_append.1 he with h | h
    · exact list_no_slash rooted σ hv e h
    · exact (hes e h).2.2.2
  have hfold := foldl_list rooted σ hv es hes
  have hlist : (⟨σ.dots, σ.elems ++ es⟩ : Stack).list = σ.list ++ es := by
    simp [Stack.list]
  cases rooted with
  | true =>
    have h := (Clean_rooted (σ.list ++ es) hsl).1
    rw [hfold] at h
    simp only [render, ↓reduceIte, hlist, List.singleton_append] at h ⊢
    rw [joinSlash_append _ _ hl hne] at h
    simpa using h
  | false =>
    have hj : joinSlash (σ.list ++ es) = joinSlash σ.list ++ '/' :: joinSlash es :=
      joinSlash_append _ _ hl hne
    have hne2 : joinSlash (σ.list ++ es) ≠ [] := by
      rw [hj]; simp
    obtain ⟨e0, L0, hL0⟩ := List.exists_cons_of_ne_nil hl
    have he0 : e0 ≠ [] := Stack.list_ne_nil hv e0 (by rw [hL0]; simp)
    have he0s : '/' ∉ e0 := list_no_slash false σ hv e0 (by rw [hL0]; simp)
    have hhead : (joinSlash (σ.list ++ es)).head? ≠ some '/' := by
      rw [hL0, List.cons_append, head_joinSlash _ _ he0]
      obtain ⟨c, t, rfl⟩ := List.exists_cons_of_ne_nil he0
      simp only [List.head?_cons, ne_eq, Option.some.injEq]
      intro hc
      exact he0s (by simp [hc])
    have h := (Clean_relative (σ.list ++ es) hsl hne2 hhead).1
    rw [hfold] at h
    have hr : render false ⟨σ.dots, σ.elems ++ es⟩ = joinSlash (σ.list ++ es) := by
      simp [render, hlist]
    simp only [renderFinal, hr, hne2, ↓reduceIte] at h
    simp only [render, Bool.false_eq_true, ↓reduceIte, List.nil_append]
    rw [← hj]
    exact h

/-- Function `path.Join` on two elements of which the first is not empty. -/
theorem Join_pair (a b : GoString) (ha : a ≠ []) :
    Join [a, b] = Clean (a ++ '/' :: b) := by
  have hlen : 0 < a.length := List.length_pos.2 ha
  have hsize : ¬ (a.length + b.length = 0) := by omega
  simp [Join, joinBuf, ha, hlen, hsize]

/-- Joining a clean directory and a clean relative path of names only: the
result is the two with one slash between them. -/
theorem Join_clean (lp f : GoString) (hlp : lp ≠ []) (hclp : Clean lp = lp)
    (hlast : lp.getLast? ≠ some '/') (hdot : lp ≠ ['.'])
    (hcf : Clean f = f) (hrel : f.head? ≠ some '/') (hfdot : f ≠ ['.'])
    (hf2 : f ≠ ['.', '.']) (hf3 : ¬ ['.', '.', '/'] <+: f) :
    Join [lp, f] = lp ++ '/' :: f := by
  have hf : f ≠ [] := by
    intro h
    rw [h] at hcf
    exact absurd hcf (by decide)
  rw [Join_pair lp f hlp]
  obtain ⟨σf, hvf, hfr⟩ := exists_stack_relative f hf hrel hfdot hcf
  obtain ⟨k, es⟩ := σf
  have hk : k = 0 := by
    cases k with
    | zero => rfl
    | succ k =>
      exfalso
      have hl : (⟨k + 1, es⟩ : Stack).list =
          ['.', '.'] :: (List.replicate k ['.', '.'] ++ es) := by
        simp [Stack.list, List.replicate_succ]
      simp only [render, Bool.false_eq_true, ↓reduceIte, List.nil_append, hl] at hfr
      cases hrest : List.replicate k ['.', '.'] ++ es with
      | nil =>
        rw [hrest] at hfr
        exact hf2 hfr
      | cons e2 rest =>
        rw [hrest, joinSlash_cons_cons] at hfr
        exact hf3 ⟨joinSlash (e2 :: rest), by rw [hfr]; rfl⟩
  subst hk
  have hfe : f = joinSlash es := by
    simpa [render, Stack.list] using hfr
  have hes : es ≠ [] := by
    intro h
    rw [h] at hfe
    exact hf hfe
  cases lp with
  | nil => exact absurd rfl hlp
  | cons c t =>
    by_cases hs : c = '/'
    · subst hs
      obtain ⟨σ, hv, hr⟩ := exists_stack_rooted t hclp
      have hl : σ.list ≠ [] := by
        intro h
        have : render true σ = ['/'] := by simp [render, h, joinSlash]
        rw [this] at hr
        rw [hr] at hlast
        exact hlast rfl
      rw [hr, hfe]
      exact Clean_render_append true σ hv hl es hvf.2 hes
    · have hhead : (c :: t).head? ≠ some '/' := by simpa using hs
      obtain ⟨σ, hv, hr⟩ := exists_stack_relative (c :: t) hlp hhead hdot hclp
      have hl : σ.list ≠ [] := by
        intro h
        have : render false σ = [] := by simp [render, h, joinSlash]
        rw [this] at hr
        exact hlp hr
      rw [hr, hfe]
      exact Clean_render_append false σ hv hl es hvf.2 hes

set_option maxRecDepth 100000 in
/-- The model of `Clean` passes the table of the tests of the Go library. -/
theorem Clean_cleantests : ∀ t ∈ cleantests, Clean t.1.toList = t.2.toList := by
  decide

set_option maxRecDepth 100000 in
/-- The model of `Join` passes the table of the tests of the Go library. -/
theorem Join_jointests :
    ∀ t ∈ jointests, Join (t.1.map String.toList) = t.2.toList := by
  decide

end path

/-! ### `strings.Split` at a one-byte separator -/

namespace strings

/-- A byte that does not occur is not found. -/
theorem indexFrom_single_not_mem (c : Char) (s : GoString) (i : Nat) (h : c ∉ s) :
    indexFrom [c] s i = -1 := by
  induction s generalizing i with
  | nil => simp [indexFrom]
  | cons d t ih =>
    simp only [List.mem_cons, not_or] at h
    simp [indexFrom, List.isPrefixOf, h.1, ih (i + 1) h.2]

/-- The first occurrence of a byte is found where it stands. -/
theorem indexFrom_single_mem (c : Char) (pre post : GoString) (i : Nat) (h : c ∉ pre) :
    indexFrom [c] (pre ++ c :: post) i = (i + pre.length : Nat) := by
  induction pre generalizing i with
  | nil => simp [indexFrom, List.isPrefixOf]
  | cons d t ih =>
    simp only [List.mem_cons, not_or] at h
    simp [indexFrom, List.isPrefixOf, h.1, ih (i + 1) h.2]
    omega

/-- The loop of `strings.Join` only appends to its buffer. -/
theorem foldl_join_append (sep a b : GoString) (es : List GoString) :
    es.foldl (fun b x => b ++ sep ++ x) (a ++ b) = a ++ es.foldl (fun b x => b ++ sep ++ x) b := by
  induction es generalizing b with
  | nil => rfl
  | cons e es ih =>
    simp only [List.foldl_cons]
    rw [← ih]
    simp [List.append_assoc]

/-- Joining two elements or more: the first, the separator, the rest joined. -/
theorem Join_cons_cons (e e2 : GoString) (es : List GoString) (sep : GoString) :
    Join (e :: e2 :: es) sep = e ++ sep ++ Join (e2 :: es) sep := by
  cases es with
  | nil => simp [Join]
  | cons e3 es =>
    simp only [Join, List.foldl_cons]
    rw [List.append_assoc, List.append_assoc, List.append_assoc, foldl_join_append,
      foldl_join_append]
    simp [List.append_assoc]

/-- A byte that occurs has a first occurrence. -/
theorem exists_split_of_mem (c : Char) (s : GoString) (h : c ∈ s) :
    ∃ pre post, s = pre ++ c :: post ∧ c ∉ pre := by
  induction s with
  | nil => simp at h
  | cons d t ih =>
    by_cases hd : c = d
    · exact ⟨[], t, by simp [hd], by simp⟩
    · have ht : c ∈ t := by
        rcases List.mem_cons.1 h with h | h
        · exact absurd h hd
        · exact h
      obtain ⟨pre, post, rfl, hpre⟩ := ih ht
      exact ⟨d :: pre, post, by simp, by simp [hd, hpre]⟩

/-- The loop of `genSplit` for a one-byte separator, given at least as many
iterations as the separator occurs: the pieces number one more than the
separators, none holds the separator, and joined they give `s` back. -/
theorem genSplitLoop_single (c : Char) (k : Nat) (s : GoString) (hk : s.count c ≤ k) :
    (genSplitLoop [c] 0 k s).length = s.count c + 1 ∧
    (∀ e ∈ genSplitLoop [c] 0 k s, c ∉ e) ∧
    Join (genSplitLoop [c] 0 k s) [c] = s ∧
    genSplitLoop [c] 0 k s ≠ [] := by
  induction k generalizing s with
  | zero =>
    have h0 : s.count c = 0 := by omega
    have hc : c ∉ s := List.count_eq_zero.1 h0
    simp [genSplitLoop, h0, hc, Join]
  | succ k ih =>
    by_cases hc : c ∈ s
    · obtain ⟨pre, post, rfl, hpre⟩ := exists_split_of_mem c s hc
      have hcount : (pre ++ c :: post).count c = post.count c + 1 := by
        simp [List.count_append, List.count_eq_zero.2 hpre]
      have hpost : post.count c ≤ k := by omega
      obtain ⟨h1, h2, h3, h4⟩ := ih post hpost
      have hidx : Index (pre ++ c :: post) [c] = (pre.length : Nat) := by
        simpa [Index] using indexFrom_single_mem c pre post 0 hpre
      have hloop : genSplitLoop [c] 0 (k + 1) (pre ++ c :: post) =
          pre :: genSplitLoop [c] 0 k post := by
        simp [genSplitLoop, hidx]
      rw [hloop]
      refine ⟨by simp [h1, hcount], ?_, ?_, by simp⟩
      · intro e he
        rcases List.mem_cons.1 he with rfl | he
        · exact hpre
        · exact h2 e he
      · obtain ⟨e2, es, hes⟩ := List.exists_cons_of_ne_nil h4
        rw [hes, Join_cons_cons, ← hes, h3]
        simp
    · have h0 : s.count c = 0 := List.count_eq_zero.2 hc
      have hidx : Index s [c] = -1 := by
        simpa [Index] using indexFrom_single_not_mem c s 0 hc
      simp [genSplitLoop, hidx, h0, hc, Join]

/-- For a one-byte separator `strings.Split` runs the loop of `genSplit` once
for each occurrence of the separator. -/
theorem Split_single (c : Char) (s : GoString) :
    Split s [c] = genSplitLoop [c] 0 (s.count c) s := by
  have hle : s.count c ≤ s.length := List.count_le_length _ _
  have hnot : ¬ s.length < s.count c := by omega
  simp [Split, genSplit, Count, hnot]

/-- The model of `Split` and `Join` on the examples of their documentation. -/
theorem Split_examples :
    Split "a,b,c".toList ",".toList = ["a".toList, "b".toList, "c".toList] ∧
    Split "a man a plan a canal panama".toList "a ".toList =
      ["".toList, "man ".toList, "plan ".toList, "canal panama".toList] ∧
    Split " xyz ".toList "".toList =
      [" ".toList, "x".toList, "y".toList, "z".toList, " ".toList] ∧
    Split "".toList "xyz".toList = ["".toList] ∧
    Join ["foo".toList, "bar".toList, "baz".toList] ", ".toList = "foo, bar, baz".toList := by
  decide

end strings

namespace simulator

open flag (CommandLine)

/-- After the assignments `flagset[name] = true` for the names of `l`, a key
reads `true` exactly when it did before or is one of `l`. -/
theorem foldl_setFlag (l : List String) (m : FlagSet) (n : String) :
    l.foldl setFlag m n = (m n || decide (n ∈ l)) := by
  induction l generalizing m with
  | nil => simp
  | cons a l ih =>
    simp only [List.foldl_cons, ih, setFlag, List.mem_cons]
    by_cases h : n = a <;> simp [h]

/-- The map `flagset` that `createRunner` fills holds `true` for exactly the
defined flags that were set on the command line. -/
theorem flagset_eq_true_iff (cl : CommandLine) (n : String) :
    flagset cl n = true ↔ ∃ k, (n, k) ∈ definedFlags ∧ flag.isSet cl n k = true := by
  unfold flagset flag.Visit
  rw [foldl_setFlag]
  simp only [flagset0, Bool.false_or, decide_eq_true_eq, List.mem_map, List.mem_filter]
  constructor
  · rintro ⟨⟨a, k⟩, ⟨hmem, hset⟩, rfl⟩
    exact ⟨k, hmem, hset⟩
  · rintro ⟨k, hmem, hset⟩
    exact ⟨(n, k), ⟨hmem, hset⟩, rfl⟩

/-- For a flag of kind string, `flagset` holds whether the flag occurs on the
command line. -/
theorem flagset_string (cl : CommandLine) (n : String)
    (hdef : (n, flag.Kind.string) ∈ definedFlags)
    (huniq : ∀ k, (n, k) ∈ definedFlags → k = flag.Kind.string) :
    flagset cl n = (cl.strings n).isSome := by
  rw [Bool.eq_iff_iff, flagset_eq_true_iff]
  constructor
  · rintro ⟨k, hmem, hset⟩
    rw [huniq k hmem] at hset
    exact hset
  · intro h
    exact ⟨_, hdef, h⟩

set_option maxRecDepth 100000 in
/-- Counterexample to C1 as stated: with the flag not set, a clean non-empty
`local_path` without trailing slash and a clean relative `f`, the result is
not `local_path + "/" + f` when `f` starts with `..` (here `local_path` is
not even a prefix of the result), when `f` is `.`, or when `local_path` is
`.`. -/
theorem addLocalPathIfNotSet_clean_counterexample :
    (path.Clean "/srv".toList = "/srv".toList ∧ path.Clean "../etc".toList = "../etc".toList ∧
      addLocalPathIfNotSet flagset0 "/srv".toList "../etc".toList "pathways_dir" =
        "/etc".toList ∧
      addLocalPathIfNotSet flagset0 "/srv".toList "../etc".toList "pathways_dir" ≠
        "/srv".toList ++ '/' :: "../etc".toList ∧
      ¬ "/srv".toList <+: addLocalPathIfNotSet flagset0 "/srv".toList "../etc".toList
        "pathways_dir") ∧
    (path.Clean ".".toList = ".".toList ∧
      addLocalPathIfNotSet flagset0 "/srv".toList ".".toList "pathways_dir" = "/srv".toList ∧
      addLocalPathIfNotSet flagset0 "/srv".toList ".".toList "pathways_dir" ≠
        "/srv".toList ++ '/' :: ".".toList) ∧
    (path.Clean "a".toList = "a".toList ∧
      addLocalPathIfNotSet flagset0 ".".toList "a".toList "pathways_dir" = "a".toList ∧
      addLocalPathIfNotSet flagset0 ".".toList "a".toList "pathways_dir" ≠
        ".".toList ++ '/' :: "a".toList ∧
      ¬ ".".toList <+: addLocalPathIfNotSet flagset0 ".".toList "a".toList "pathways_dir") := by
  decide

/-- Claim C1, amended.  When the flag `n` was not set (`flagset[n]` is
false), `addLocalPathIfNotSet(f, n)` is `path.Join(local_path, f)`; and for a
`local_path` that is non-empty, clean, without trailing slash and not `.`,
and an `f` that is a clean relative path, not `.` and not starting with a
`..` element, the result is `local_path + "/" + f`, of which `local_path` is
a prefix. -/
theorem addLocalPathIfNotSet_not_set (fs : FlagSet) (lp f : GoString) (n : String)
    (hn : fs n = false) :
    addLocalPathIfNotSet fs lp f n = path.Join [lp, f] ∧
    (lp ≠ [] → path.Clean lp = lp → lp.getLast? ≠ some '/' → lp ≠ ".".toList →
      path.Clean f = f → f.head? ≠ some '/' → f ≠ ".".toList → f ≠ "..".toList →
      ¬ "../".toList <+: f →
      addLocalPathIfNotSet fs lp f n = lp ++ '/' :: f ∧
      lp <+: addLocalPathIfNotSet fs lp f n) := by
  have hj : addLocalPathIfNotSet fs lp f n = path.Join [lp, f] := by
    simp [addLocalPathIfNotSet, hn]
  refine ⟨hj, ?_⟩
  intro h1 h2 h3 h4 h5 h6 h7 h8 h9
  have h := path.Join_clean lp f h1 h2 h3 h4 h5 h6 h7 h8 h9
  rw [hj, h]
  exact ⟨rfl, List.prefix_append _ _⟩

set_option maxRecDepth 100000 in
/-- Witness of C1 amended: `-local_path=/x` and the default of
`-pathways_dir`. -/
theorem addLocalPathIfNotSet_not_set_witness :
    addLocalPathIfNotSet flagset0 "/x".toList "configs/pathways".toList "pathways_dir" =
      "/x".toList ++ '/' :: "configs/pathways".toList ∧
    "/x".toList <+:
      addLocalPathIfNotSet flagset0 "/x".toList "configs/pathways".toList "pathways_dir" :=
  (addLocalPathIfNotSet_not_set flagset0 "/x".toList "configs/pathways".toList "pathways_dir"
    rfl).2 (by decide) (by decide) (by decide) (by decide) (by decide) (by decide) (by decide)
    (by decide) (by decide)

/-- Claim C2.  When the flag `n` was set on the command line (`flagset[n]` is
true), `addLocalPathIfNotSet(f, n)` is `f` itself, whatever `f` is (the
default of the flag included) and whatever `local_path` is; and `flagset[n]`
is true for every defined string flag that occurs on the command line. -/
theorem addLocalPathIfNotSet_set (fs : FlagSet) (lp f : GoString) (n : String)
    (hset : fs n = true) :
    addLocalPathIfNotSet fs lp f n = f ∧
    (∀ lp2 : GoString, addLocalPathIfNotSet fs lp2 f n = addLocalPathIfNotSet fs lp f n) ∧
    (∀ cl : CommandLine, (n, flag.Kind.string) ∈ definedFlags → (cl.strings n).isSome = true →
      addLocalPathIfNotSet (flagset cl) (localPath cl) f n = f) := by
  refine ⟨by simp [addLocalPathIfNotSet, hset], ?_, ?_⟩
  · intro lp2
    simp [addLocalPathIfNotSet, hset]
  · intro cl hdef hsome
    have h : flagset cl n = true := (flagset_eq_true_iff cl n).2 ⟨_, hdef, hsome⟩
    simp [addLocalPathIfNotSet, h]

/-- Witness of C2: `-pathways_dir=configs/pathways` given on the command
line, with `-local_path=/x`. -/
theorem addLocalPathIfNotSet_set_witness :
    addLocalPathIfNotSet (setFlag flagset0 "pathways_dir") "/x".toList
        "configs/pathways".toList "pathways_dir" = "configs/pathways".toList ∧
    (∀ lp2 : GoString,
      addLocalPathIfNotSet (setFlag flagset0 "pathways_dir") lp2
          "configs/pathways".toList "pathways_dir" =
        addLocalPathIfNotSet (setFlag flagset0 "pathways_dir") "/x".toList
          "configs/pathways".toList "pathways_dir") ∧
    (∀ cl : CommandLine, ("pathways_dir", flag.Kind.string) ∈ definedFlags →
      (cl.strings "pathways_dir").isSome = true →
      addLocalPathIfNotSet (flagset cl) (localPath cl) "configs/pathways".toList
        "pathways_dir" = "configs/pathways".toList) :=
  addLocalPathIfNotSet_set (setFlag flagset0 "pathways_dir") "/x".toList
    "configs/pathways".toList "pathways_dir" (by decide)

/-- Claim C6.  `createRunner` returns a nil runner and the wrapped error when
`hospital.DefaultConfig` or `hospital.NewHospital` fails, making no further
call; when both succeed it returns the result of `runner.New` on the
hospital and the `runner.Config` it built. -/
theorem createRunner_errors {α β ρ : Type} (env : Collaborators α β ρ) (cl : CommandLine) :
    (∀ e, env.DefaultConfig (createPaths cl) = .error e →
      (createRunner env cl).hr = none ∧
      (createRunner env cl).err =
        some (GoError.withMessage e "cannot create default hospital config") ∧
      (createRunner env cl).calls = [.DefaultConfig (createPaths cl)] ∧
      (∀ c ∈ (createRunner env cl).calls, c.isNewHospital = false ∧ c.isNew = false)) ∧
    (∀ config e, env.DefaultConfig (createPaths cl) = .ok config →
      env.NewHospital config = .error e →
      (createRunner env cl).hr = none ∧
      (createRunner env cl).err = some (GoError.withMessage e "cannot instantiate Hospital") ∧
      (createRunner env cl).calls = [.DefaultConfig (createPaths cl), .NewHospital config] ∧
      (∀ c ∈ (createRunner env cl).calls, c.isNew = false)) ∧
    (∀ config h, env.DefaultConfig (createPaths cl) = .ok config →
      env.NewHospital config = .ok h →
      ((createRunner env cl).hr, (createRunner env cl).err) =
        env.New h (createRunnerConfig cl config h) ∧
      (createRunner env cl).calls =
        [.DefaultConfig (createPaths cl), .NewHospital config,
          .New h (createRunnerConfig cl config h)]) := by
  refine ⟨?_, ?_, ?_⟩
  · intro e he
    simp [createRunner, he, errors.Wrap, Call.isNewHospital, Call.isNew]
  · intro config e hc he
    simp [createRunner, hc, he, errors.Wrap, Call.isNew]
  · intro config h hc hh
    simp [createRunner, hc, hh]

/-- The deferred calls hold exactly one call of `hr.Close`. -/
theorem deferred_close_count {α β ρ : Type} (env : Collaborators α β ρ) (hr : Option ρ) :
    ((deferred env hr).filter Event.isClose).length = 1 := by
  unfold deferred
  cases env.Close hr <;> simp [Event.isClose]

/-- The deferred calls hold no call of `hr.Run`. -/
theorem deferred_no_run {α β ρ : Type} (env : Collaborators α β ρ) (hr : Option ρ) :
    ∀ ev ∈ deferred env hr, ev.isRun = false := by
  unfold deferred
  cases env.Close hr <;> simp [Event.isRun]

/-- No call made by `createRunner` is a call of `hr.Run`. -/
theorem filter_isRun_calls {α β ρ : Type} (l : List (Call α β)) :
    (l.map (Event.createRunnerCall : Call α β → Event α β ρ)).filter Event.isRun = [] := by
  induction l with
  | nil => rfl
  | cons c l ih => simp [List.filter_cons, Event.isRun]

/-- No call made by `createRunner` is a call of `hr.Close`. -/
theorem filter_isClose_calls {α β ρ : Type} (l : List (Call α β)) :
    (l.map (Event.createRunnerCall : Call α β → Event α β ρ)).filter Event.isClose = [] := by
  induction l with
  | nil => rfl
  | cons c l ih => simp [List.filter_cons, Event.isClose]

/-- A list without calls of `hr.Run`, read event by event. -/
theorem no_run_of_filter {α β ρ : Type} (t : List (Event α β ρ))
    (h : t.filter Event.isRun = []) : ∀ ev ∈ t, ev.isRun = false := by
  intro ev hev
  have := (List.filter_eq_nil_iff.1 h) ev hev
  simpa using this

/-- A list without calls of `hr.Close`, read event by event. -/
theorem no_close_of_filter {α β ρ : Type} (t : List (Event α β ρ))
    (h : t.filter Event.isClose = []) : ∀ ev ∈ t, ev.isClose = false := by
  intro ev hev
  have := (List.filter_eq_nil_iff.1 h) ev hev
  simpa using this

/-- The execution of `main` when `logging.SetLogLevelFromString` fails. -/
theorem main_of_logLevel_error {α β ρ : Type} (env : Collaborators α β ρ) (cl : CommandLine)
    (e : GoError) (h1 : env.SetLogLevelFromString (logLevel cl) = some e) :
    main env cl =
      { trace := [.flagParse, .onShutdown, .SetLogLevelFromString (logLevel cl) (some e)] ++
          [.Fatal "Cannot configure Simulated Hospital logger" e]
        exitCode := 1 } := by
  simp [main, h1]

/-- The execution of `main` when `hl7.TimezoneAndLocation` fails. -/
theorem main_of_timezone_error {α β ρ : Type} (env : Collaborators α β ρ) (cl : CommandLine)
    (e : GoError) (h1 : env.SetLogLevelFromString (logLevel cl) = none)
    (h2 : env.TimezoneAndLocation (hl7Timezone cl) = some e) :
    main env cl =
      { trace := [.flagParse, .onShutdown, .SetLogLevelFromString (logLevel cl) none,
            .TimezoneAndLocation (hl7Timezone cl) (some e)] ++
          [.Fatal "Cannot configure HL7 timezone and location" e]
        exitCode := 1 } := by
  simp [main, h1, h2]

/-- The execution of `main` when `createRunner` fails. -/
theorem main_of_createRunner_error {α β ρ : Type} (env : Collaborators α β ρ)
    (cl : CommandLine) (e : GoError)
    (h1 : env.SetLogLevelFromString (logLevel cl) = none)
    (h2 : env.TimezoneAndLocation (hl7Timezone cl) = none)
    (h3 : (createRunner env cl).err = some e) :
    main env cl =
      { trace := startup env cl ++ [.Fatal "Cannot create Hospital Runner" e]
        exitCode := 1 } := by
  simp [main, h1, h2, h3, startup]

/-- The execution of `main` when the configuration succeeds. -/
theorem main_of_success {α β ρ : Type} (env : Collaborators α β ρ) (cl : CommandLine)
    (h1 : env.SetLogLevelFromString (logLevel cl) = none)
    (h2 : env.TimezoneAndLocation (hl7Timezone cl) = none)
    (h3 : (createRunner env cl).err = none) :
    main env cl =
      { trace := startup env cl ++
          [.RunCalled (createRunner env cl).hr,
            (match env.Run (createRunner env cl).hr with
              | .returned => .RunReturned
              | .panicked => .RunPanicked)] ++
          deferred env (createRunner env cl).hr
        exitCode :=
          match env.Run (createRunner env cl).hr with
          | .returned => 0
          | .panicked => 2 } := by
  cases hrun : env.Run (createRunner env cl).hr <;> simp [main, h1, h2, h3, startup, hrun]

/-- The events up to the return of `createRunner` hold no call of `hr.Run`. -/
theorem startup_no_run {α β ρ : Type} (env : Collaborators α β ρ) (cl : CommandLine) :
    (startup env cl).filter Event.isRun = [] := by
  simp [startup, List.filter_append, List.filter_cons, filter_isRun_calls, Event.isRun]

/-- The events up to the return of `createRunner` hold no call of
`hr.Close`. -/
theorem startup_no_close {α β ρ : Type} (env : Collaborators α β ρ) (cl : CommandLine) :
    (startup env cl).filter Event.isClose = [] := by
  simp [startup, List.filter_append, List.filter_cons, filter_isClose_calls, Event.isClose]

/-- Claim C5.  If `logging.SetLogLevelFromString`, `hl7.TimezoneAndLocation`
or `createRunner` returns an error, `main` ends with a call of `Fatal` and
exit code 1 and never calls `hr.Run`; and `hr.Run` is called only when all
three returned no error. -/
theorem main_fatal_before_run {α β ρ : Type} (env : Collaborators α β ρ) (cl : CommandLine) :
    ((env.SetLogLevelFromString (logLevel cl) ≠ none ∨
        env.TimezoneAndLocation (hl7Timezone cl) ≠ none ∨
        (createRunner env cl).err ≠ none) →
      (main env cl).exitCode = 1 ∧
      (∃ msg e, (main env cl).trace.getLast? = some (.Fatal msg e)) ∧
      (∀ ev ∈ (main env cl).trace, ev.isRun = false)) ∧
    ((∃ ev ∈ (main env cl).trace, ev.isRun = true) →
      env.SetLogLevelFromString (logLevel cl) = none ∧
      env.TimezoneAndLocation (hl7Timezone cl) = none ∧
      (createRunner env cl).err = none) := by
  have hfatal : (env.SetLogLevelFromString (logLevel cl) ≠ none ∨
        env.TimezoneAndLocation (hl7Timezone cl) ≠ none ∨
        (createRunner env cl).err ≠ none) →
      (main env cl).exitCode = 1 ∧
      (∃ msg e, (main env cl).trace.getLast? = some (.Fatal msg e)) ∧
      (main env cl).trace.filter Event.isRun = [] := by
    intro hor
    cases h1 : env.SetLogLevelFromString (logLevel cl) with
    | some e1 =>
      rw [main_of_logLevel_error env cl e1 h1]
      exact ⟨rfl, ⟨_, _, List.getLast?_concat _⟩, rfl⟩
    | none =>
      cases h2 : env.TimezoneAndLocation (hl7Timezone cl) with
      | some e2 =>
        rw [main_of_timezone_error env cl e2 h1 h2]
        exact ⟨rfl, ⟨_, _, List.getLast?_concat _⟩, rfl⟩
      | none =>
        cases h3 : (createRunner env cl).err with
        | some e3 =>
          rw [main_of_createRunner_error env cl e3 h1 h2 h3]
          refine ⟨rfl, ⟨_, _, List.getLast?_concat _⟩, ?_⟩
          simp [List.filter_append, startup_no_run, Event.isRun]
        | none => simp [h1, h2, h3] at hor
  refine ⟨fun h => ⟨(hfatal h).1, (hfatal h).2.1, no_run_of_filter _ (hfatal h).2.2⟩, ?_⟩
  rintro ⟨ev, hev, hrun⟩
  by_contra hcon
  have hor : env.SetLogLevelFromString (logLevel cl) ≠ none ∨
        env.TimezoneAndLocation (hl7Timezone cl) ≠ none ∨
        (createRunner env cl).err ≠ none := by
    by_contra hnone
    push_neg at hnone
    exact hcon hnone
  rw [no_run_of_filter _ (hfatal hor).2.2 ev hev] at hrun
  exact Bool.noConfusion hrun

/-- Witness of C5: with a time zone that cannot be loaded, `main` ends in
`Fatal` with exit code 1 and without a call of `hr.Run`. -/
theorem main_fatal_before_run_witness :
    (main badTimezone noFlags).exitCode = 1 ∧
    (∃ msg e, (main badTimezone noFlags).trace.getLast? = some (.Fatal msg e)) ∧
    (∀ ev ∈ (main badTimezone noFlags).trace, ev.isRun = false) :=
  (main_fatal_before_run badTimezone noFlags).1 (Or.inr (Or.inl (by simp [badTimezone])))

/-- Claim C8.  When `createRunner` succeeds and `hr.Run` returns, `hr.Close`
is called exactly once in the whole execution, and that call comes after the
return of `hr.Run`; when `createRunner` fails, `hr.Close` is never called. -/
theorem main_close_after_run {α β ρ : Type} (env : Collaborators α β ρ) (cl : CommandLine) :
    (env.SetLogLevelFromString (logLevel cl) = none →
      env.TimezoneAndLocation (hl7Timezone cl) = none →
      (createRunner env cl).err = none →
      env.Run (createRunner env cl).hr = .returned →
      ((main env cl).trace.filter Event.isClose).length = 1 ∧
      ∃ pre post, (main env cl).trace = pre ++ Event.RunReturned :: post ∧
        (∀ ev ∈ pre, ev.isClose = false) ∧
        (post.filter Event.isClose).length = 1) ∧
    ((createRunner env cl).err ≠ none → ∀ ev ∈ (main env cl).trace, ev.isClose = false) := by
  constructor
  · intro h1 h2 h3 hrun
    rw [main_of_success env cl h1 h2 h3, hrun]
    refine ⟨?_, startup env cl ++ [.RunCalled (createRunner env cl).hr],
      deferred env (createRunner env cl).hr, by simp, ?_, deferred_close_count _ _⟩
    · simp [List.filter_append, startup_no_close, deferred_close_count, Event.isClose]
    · apply no_close_of_filter
      simp [List.filter_append, startup_no_close, Event.isClose]
  · intro herr
    apply no_close_of_filter
    cases h1 : env.SetLogLevelFromString (logLevel cl) with
    | some e1 => rw [main_of_logLevel_error env cl e1 h1]; rfl
    | none =>
      cases h2 : env.TimezoneAndLocation (hl7Timezone cl) with
      | some e2 => rw [main_of_timezone_error env cl e2 h1 h2]; rfl
      | none =>
        cases h3 : (createRunner env cl).err with
        | some e3 =>
          rw [main_of_createRunner_error env cl e3 h1 h2 h3]
          simp [List.filter_append, startup_no_close, Event.isClose]
        | none => exact absurd h3 herr

/-- Witness of C8: all collaborators succeed and `hr.Run` returns. -/
theorem main_close_after_run_witness :
    ((main allSucceed noFlags).trace.filter Event.isClose).length = 1 ∧
    ∃ pre post, (main allSucceed noFlags).trace = pre ++ Event.RunReturned :: post ∧
      (∀ ev ∈ pre, ev.isClose = false) ∧
      (post.filter Event.isClose).length = 1 :=
  (main_close_after_run allSucceed noFlags).1 rfl rfl rfl rfl

/-- Counterexample to C7: with `-pathways_per_hour=-1` and collaborators that
succeed, `createRunner` calls `runner.New` with `PathwaysPerHour = -1`. -/
theorem createRunner_negative_rate :
    ∃ h rc, Call.New h rc ∈ (createRunner allSucceed negativeRate).calls ∧
      rc.PathwaysPerHour = -1 ∧ ¬ (0 ≤ rc.PathwaysPerHour) := by
  refine ⟨(), createRunnerConfig negativeRate ⟨(), (), (), ()⟩ (), ?_, ?_, ?_⟩
  · simp [createRunner, allSucceed]
  · simp [createRunnerConfig, pathwaysPerHour, flag.Float64Flag, negativeRate]
  · simp [createRunnerConfig, pathwaysPerHour, flag.Float64Flag, negativeRate]

/-- Claim C7, amended.  The `PathwaysPerHour` of every `runner.Config` that
`createRunner` passes to `runner.New` is the value of `-pathways_per_hour` as
given (1 when the flag is not set), so it is at least 0 exactly when the
value given is; and `runner.New` is called whenever `hospital.DefaultConfig`
and `hospital.NewHospital` succeed. -/
theorem createRunner_rate_passed {α β ρ : Type} (env : Collaborators α β ρ) (cl : CommandLine) :
    (∀ h rc, Call.New h rc ∈ (createRunner env cl).calls →
      rc.PathwaysPerHour = (cl.floats "pathways_per_hour").getD 1 ∧
      (0 ≤ rc.PathwaysPerHour ↔ 0 ≤ (cl.floats "pathways_per_hour").getD 1) ∧
      (cl.floats "pathways_per_hour" = none → rc.PathwaysPerHour = 1)) ∧
    (∀ config h, env.DefaultConfig (createPaths cl) = .ok config →
      env.NewHospital config = .ok h →
      Call.New h (createRunnerConfig cl config h) ∈ (createRunner env cl).calls) := by
  constructor
  · intro h rc hmem
    have hrc : rc.PathwaysPerHour = (cl.floats "pathways_per_hour").getD 1 := by
      unfold createRunner at hmem
      cases hc : env.DefaultConfig (createPaths cl) with
      | error e => simp [hc] at hmem
      | ok config =>
        cases hh : env.NewHospital config with
        | error e => simp [hc, hh] at hmem
        | ok h2 =>
          simp [hc, hh] at hmem
          rw [hmem.2]
          rfl
    refine ⟨hrc, by rw [hrc], fun hnone => ?_⟩
    rw [hrc, hnone]
    rfl
  · intro config h hc hh
    simp [createRunner, hc, hh]

/-- Witness of C7 amended: with `-pathways_per_hour=-1` the runner is handed
`-1`. -/
theorem createRunner_rate_passed_witness :
    Call.New () (createRunnerConfig negativeRate ⟨(), (), (), ()⟩ ()) ∈
      (createRunner allSucceed negativeRate).calls :=
  (createRunner_rate_passed allSucceed negativeRate).2 ⟨(), (), (), ()⟩ () rfl rfl

/-- Witness of C6: `hospital.DefaultConfig` fails. -/
theorem createRunner_errors_witness :
    (createRunner badConfig noFlags).hr = none ∧
    (createRunner badConfig noFlags).err =
      some (GoError.withMessage (.external "cannot read file")
        "cannot create default hospital config") ∧
    (createRunner badConfig noFlags).calls = [.DefaultConfig (createPaths noFlags)] ∧
    (∀ c ∈ (createRunner badConfig noFlags).calls, c.isNewHospital = false ∧ c.isNew = false) :=
  (createRunner_errors badConfig noFlags).1 (.external "cannot read file") rfl

/-- Claim C4.  The include filter `PathwayPaths.Names` that `createRunner`
builds is empty (nil) when `-pathway_names` is the empty string; otherwise it
is `strings.Split` of the value at the commas: one element more than the
value has commas, no element holding a comma, and the elements joined with
`,` give the value back. -/
theorem createRunner_include (cl : CommandLine) :
    (pathwayNames cl = [] → (createPaths cl).PathwayPaths.Names = []) ∧
    (pathwayNames cl ≠ [] →
      (createPaths cl).PathwayPaths.Names = strings.Split (pathwayNames cl) ",".toList ∧
      (createPaths cl).PathwayPaths.Names.length = (pathwayNames cl).count ',' + 1 ∧
      (∀ e ∈ (createPaths cl).PathwayPaths.Names, ',' ∉ e) ∧
      strings.Join (createPaths cl).PathwayPaths.Names ",".toList = pathwayNames cl) := by
  have hsep : ",".toList = [','] := rfl
  constructor
  · intro h
    simp [createPaths, includeNames, h]
  · intro h
    have hnames : (createPaths cl).PathwayPaths.Names =
        strings.Split (pathwayNames cl) ",".toList := by
      simp [createPaths, includeNames, h]
    rw [hnames, hsep, strings.Split_single]
    obtain ⟨h1, h2, h3, _⟩ :=
      strings.genSplitLoop_single ',' ((pathwayNames cl).count ',') (pathwayNames cl) le_rfl
    exact ⟨rfl, h1, h2, h3⟩

/-- Witness of C4: `-pathway_names=a,b`. -/
theorem createRunner_include_witness :
    (createPaths someNames).PathwayPaths.Names =
      strings.Split (pathwayNames someNames) ",".toList ∧
    (createPaths someNames).PathwayPaths.Names.length = (pathwayNames someNames).count ',' + 1 ∧
    (∀ e ∈ (createPaths someNames).PathwayPaths.Names, ',' ∉ e) ∧
    strings.Join (createPaths someNames).PathwayPaths.Names ",".toList =
      pathwayNames someNames :=
  (createRunner_include someNames).2 (by decide)

/-- Claim C9.  The exclude filter `PathwayPaths.ExcludeNames` that
`createRunner` builds is `strings.Split` of the value of
`-exclude_pathway_names` at the commas: for a value `s` given on the command
line it is `strings.Split(s, ",")`, one element more than `s` has commas, no
element holding a comma, the elements joined with `,` giving `s` back.  It is
never empty; for the empty value, and when the flag is not given, it is the
list of the one empty name, whereas `Names` is empty for an empty
`-pathway_names`. -/
theorem createRunner_exclude (cl : CommandLine) :
    (createPaths cl).PathwayPaths.ExcludeNames =
      strings.Split (excludePathwayNames cl) ",".toList ∧
    (∀ s : GoString, cl.strings "exclude_pathway_names" = some s →
      (createPaths cl).PathwayPaths.ExcludeNames = strings.Split s ",".toList ∧
      (createPaths cl).PathwayPaths.ExcludeNames.length = s.count ',' + 1 ∧
      (∀ e ∈ (createPaths cl).PathwayPaths.ExcludeNames, ',' ∉ e) ∧
      strings.Join (createPaths cl).PathwayPaths.ExcludeNames ",".toList = s) ∧
    (createPaths cl).PathwayPaths.ExcludeNames.length =
      (excludePathwayNames cl).count ',' + 1 ∧
    1 ≤ (createPaths cl).PathwayPaths.ExcludeNames.length ∧
    (excludePathwayNames cl = [] → (createPaths cl).PathwayPaths.ExcludeNames = [[]]) ∧
    (cl.strings "exclude_pathway_names" = none →
      (createPaths cl).PathwayPaths.ExcludeNames = [[]]) ∧
    (pathwayNames cl = [] → (createPaths cl).PathwayPaths.Names = []) := by
  have hsep : ",".toList = [','] := rfl
  have hex : (createPaths cl).PathwayPaths.ExcludeNames =
      strings.Split (excludePathwayNames cl) ",".toList := rfl
  have hempty : excludePathwayNames cl = [] →
      (createPaths cl).PathwayPaths.ExcludeNames = [[]] := by
    intro h
    rw [hex, h]
    rfl
  have hlen : (createPaths cl).PathwayPaths.ExcludeNames.length =
      (excludePathwayNames cl).count ',' + 1 := by
    rw [hex, hsep, strings.Split_single]
    exact (strings.genSplitLoop_single ','
      ((excludePathwayNames cl).count ',') (excludePathwayNames cl) le_rfl).1
  refine ⟨hex, ?_, hlen, by omega, hempty, ?_, ?_⟩
  · intro s hs
    have hval : excludePathwayNames cl = s := by
      simp [excludePathwayNames, flag.StringFlag, hs]
    rw [hex, hval, hsep, strings.Split_single]
    obtain ⟨h1, h2, h3, _⟩ := strings.genSplitLoop_single ',' (s.count ',') s le_rfl
    exact ⟨rfl, h1, h2, h3⟩
  · intro h
    apply hempty
    simp [excludePathwayNames, flag.StringFlag, h]
  · intro h
    simp [createPaths, includeNames, h]

/-- Witness of C9: on the command line `-exclude_pathway_names=a,b` the
exclude filter is the split of `a,b`, which is the two names `a` and `b`; on
the command line without flags it is the one empty name. -/
theorem createRunner_exclude_witness :
    ((createPaths excludeTwo).PathwayPaths.ExcludeNames =
        strings.Split "a,b".toList ",".toList ∧
      (createPaths excludeTwo).PathwayPaths.ExcludeNames.length =
        "a,b".toList.count ',' + 1 ∧
      (∀ e ∈ (createPaths excludeTwo).PathwayPaths.ExcludeNames, ',' ∉ e) ∧
      strings.Join (createPaths excludeTwo).PathwayPaths.ExcludeNames ",".toList =
        "a,b".toList) ∧
    strings.Split "a,b".toList ",".toList = ["a".toList, "b".toList] ∧
    (createPaths noFlags).PathwayPaths.ExcludeNames = [[]] :=
  ⟨(createRunner_exclude excludeTwo).2.1 "a,b".toList rfl, by decide,
    (createRunner_exclude noFlags).2.2.2.2.2.1 rfl⟩

/-- A string flag that is defined and does not occur on the command line gets
`local_path` joined in front of its default. -/
theorem addLocalPathIfNotSet_default (cl : CommandLine) (n : String) (dflt : GoString)
    (hdef : (n, flag.Kind.string) ∈ definedFlags)
    (huniq : ∀ k, (n, k) ∈ definedFlags → k = flag.Kind.string)
    (h : cl.strings n = none) :
    addLocalPathIfNotSet (flagset cl) (localPath cl) (flag.StringFlag cl n dflt) n =
      path.Join [localPath cl, dflt] := by
  have hfs : flagset cl n = false := by
    rw [flagset_string cl n hdef huniq, h]
    rfl
  simp [addLocalPathIfNotSet, hfs, flag.StringFlag, h]

/-- The twenty path flags that `createRunner` passes through
`addLocalPathIfNotSet`: each, when it does not occur on the command line,
reaches `hospital.Paths` or `runner.Config` as `path.Join(local_path, default)`. -/
theorem createRunner_default_paths (cl : CommandLine) :
    (cl.strings "locations_file" = none →
      (createPaths cl).LocationsFile =
        some (path.Join [localPath cl, "configs/hl7_messages/locations.yml".toList])) ∧
    (cl.strings "hardcoded_messages_dir" = none →
      (createPaths cl).HardcodedMessagesDir =
        some (path.Join [localPath cl, "configs/hardcoded_messages".toList])) ∧
    (cl.strings "hl7_config_file" = none →
      (createPaths cl).Hl7ConfigFile =
        some (path.Join [localPath cl, "configs/hl7_messages/hl7.yml".toList])) ∧
    (cl.strings "header_config_file" = none →
      (createPaths cl).HeaderConfigFile =
        some (path.Join [localPath cl, "configs/hl7_messages/header.yml".toList])) ∧
    (cl.strings "doctors_file" = none →
      (createPaths cl).DoctorsFile =
        some (path.Join [localPath cl, "configs/hl7_messages/doctors.yml".toList])) ∧
    (cl.strings "order_profile_file" = none →
      (createPaths cl).OrderProfilesFile =
        some (path.Join [localPath cl, "configs/hl7_messages/order_profiles.yml".toList])) ∧
    (cl.strings "pathways_dir" = none →
      (createPaths cl).PathwayPaths.Dir =
        path.Join [localPath cl, "configs/pathways".toList]) ∧
    (cl.strings "nouns_file" = none →
      (createPaths cl).DataFiles.Nouns =
        path.Join [localPath cl, "configs/hl7_messages/third_party/nouns.txt".toList]) ∧
    (cl.strings "data_config_file" = none →
      (createPaths cl).DataFiles.DataConfig =
        path.Join [localPath cl, "configs/hl7_messages/data.yml".toList]) ∧
    (cl.strings "procedures_file" = none →
      (createPaths cl).DataFiles.Procedures =
        path.Join [localPath cl, "configs/hl7_messages/procedures.csv".toList]) ∧
    (cl.strings "diagnoses_file" = none →
      (createPaths cl).DataFiles.Diagnoses =
        path.Join [localPath cl, "configs/hl7_messages/diagnoses.csv".toList]) ∧
    (cl.strings "allergies_file" = none →
      (createPaths cl).DataFiles.Allergies =
        path.Join [localPath cl, "configs/hl7_messages/allergies.csv".toList]) ∧
    (cl.strings "boys_names" = none →
      (createPaths cl).DataFiles.Boys =
        path.Join [localPath cl, "configs/hl7_messages/third_party/historicname_tcm77-254032-boys.csv".toList]) ∧
    (cl.strings "girls_names" = none →
      (createPaths cl).DataFiles.Girls =
        path.Join [localPath cl, "configs/hl7_messages/third_party/historicname_tcm77-254032-girls.csv".toList]) ∧
    (cl.strings "surnames_file" = none →
      (createPaths cl).DataFiles.Surnames =
        path.Join [localPath cl, "configs/hl7_messages/third_party/surnames.txt".toList]) ∧
    (cl.strings "ethnicity_file" = none →
      (createPaths cl).DataFiles.Ethnicities =
        path.Join [localPath cl, "configs/hl7_messages/ethnicity.csv".toList]) ∧
    (cl.strings "patient_class_file" = none →
      (createPaths cl).DataFiles.PatientClass =
        path.Join [localPath cl, "configs/hl7_messages/patient_class.csv".toList]) ∧
    (cl.strings "sample_notes_directory" = none →
      (createPaths cl).DataFiles.SampleNotesDir =
        path.Join [localPath cl, "configs/hl7_messages/third_party/notes".toList]) ∧
    (cl.strings "clinical_note_types_file" = none →
      (createPaths cl).DataFiles.ClinicalNoteTypes =
        path.Join [localPath cl, "configs/hl7_messages/third_party/note_types.txt".toList]) ∧
    (cl.strings "static_dir" = none →
      ∀ (α β : Type) (config : hospital.Config α) (h : β),
        (createRunnerConfig cl config h).DashboardStaticDir =
          path.Join [localPath cl, "web/static".toList]) := by
  refine ⟨?_, ?_, ?_, ?_, ?_, ?_, ?_, ?_, ?_, ?_, ?_, ?_, ?_, ?_, ?_, ?_, ?_, ?_, ?_, ?_⟩
  · intro h
    have hj := addLocalPathIfNotSet_default cl "locations_file" "configs/hl7_messages/locations.yml".toList
      (by decide) (by intro k; cases k <;> simp [definedFlags]) h
    simpa [createPaths, addLocalPathIfNotSetAndNotNil, locationsFile] using hj
  · intro h
    have hj := addLocalPathIfNotSet_default cl "hardcoded_messages_dir" "configs/hardcoded_messages".toList
      (by decide) (by intro k; cases k <;> simp [definedFlags]) h
    simpa [createPaths, addLocalPathIfNotSetAndNotNil, hardcodedMessagesDir] using hj
  · intro h
    have hj := addLocalPathIfNotSet_default cl "hl7_config_file" "configs/hl7_messages/hl7.yml".toList
      (by decide) (by intro k; cases k <;> simp [definedFlags]) h
    simpa [createPaths, addLocalPathIfNotSetAndNotNil, hl7ConfigFile] using hj
  · intro h
    have hj := addLocalPathIfNotSet_default cl "header_config_file" "configs/hl7_messages/header.yml".toList
      (by decide) (by intro k; cases k <;> simp [definedFlags]) h
    simpa [createPaths, addLocalPathIfNotSetAndNotNil, headerConfigFile] using hj
  · intro h
    have hj := addLocalPathIfNotSet_default cl "doctors_file" "configs/hl7_messages/doctors.yml".toList
      (by decide) (by intro k; cases k <;> simp [definedFlags]) h
    simpa [createPaths, addLocalPathIfNotSetAndNotNil, doctorsFile] using hj
  · intro h
    have hj := addLocalPathIfNotSet_default cl "order_profile_file" "configs/hl7_messages/order_profiles.yml".toList
      (by decide) (by intro k; cases k <;> simp [definedFlags]) h
    simpa [createPaths, addLocalPathIfNotSetAndNotNil, orderProfilesFile] using hj
  · intro h
    have hj := addLocalPathIfNotSet_default cl "pathways_dir" "configs/pathways".toList
      (by decide) (by intro k; cases k <;> simp [definedFlags]) h
    simpa [createPaths, addLocalPathIfNotSetAndNotNil, pathwaysDir] using hj
  · intro h
    have hj := addLocalPathIfNotSet_default cl "nouns_file" "configs/hl7_messages/third_party/nouns.txt".toList
      (by decide) (by intro k; cases k <;> simp [definedFlags]) h
    simpa [createPaths, addLocalPathIfNotSetAndNotNil, nounsFile] using hj
  · intro h
    have hj := addLocalPathIfNotSet_default cl "data_config_file" "configs/hl7_messages/data.yml".toList
      (by decide) (by intro k; cases k <;> simp [definedFlags]) h
    simpa [createPaths, addLocalPathIfNotSetAndNotNil, dataConfigFile] using hj
  · intro h
    have hj := addLocalPathIfNotSet_default cl "procedures_file" "configs/hl7_messages/procedures.csv".toList
      (by decide) (by intro k; cases k <;> simp [definedFlags]) h
    simpa [createPaths, addLocalPathIfNotSetAndNotNil, proceduresFile] using hj
  · intro h
    have hj := addLocalPathIfNotSet_default cl "diagnoses_file" "configs/hl7_messages/diagnoses.csv".toList
      (by decide) (by intro k; cases k <;> simp [definedFlags]) h
    simpa [createPaths, addLocalPathIfNotSetAndNotNil, diagnosesFile] using hj
  · intro h
    have hj := addLocalPathIfNotSet_default cl "allergies_file" "configs/hl7_messages/allergies.csv".toList
      (by decide) (by intro k; cases k <;> simp [definedFlags]) h
    simpa [createPaths, addLocalPathIfNotSetAndNotNil, allergiesFile] using hj
  · intro h
    have hj := addLocalPathIfNotSet_default cl "boys_names" "configs/hl7_messages/third_party/historicname_tcm77-254032-boys.csv".toList
      (by decide) (by intro k; cases k <;> simp [definedFlags]) h
    simpa [createPaths, addLocalPathIfNotSetAndNotNil, boysHistoricNamesFile] using hj
  · intro h
    have hj := addLocalPathIfNotSet_default cl "girls_names" "configs/hl7_messages/third_party/historicname_tcm77-254032-girls.csv".toList
      (by decide) (by intro k; cases k <;> simp [definedFlags]) h
    simpa [createPaths, addLocalPathIfNotSetAndNotNil, girlsHistoricNamesFile] using hj
  · intro h
    have hj := addLocalPathIfNotSet_default cl "surnames_file" "configs/hl7_messages/third_party/surnames.txt".toList
      (by decide) (by intro k; cases k <;> simp [definedFlags]) h
    simpa [createPaths, addLocalPathIfNotSetAndNotNil, surnamesFile] using hj
  · intro h
    have hj := addLocalPathIfNotSet_default cl "ethnicity_file" "configs/hl7_messages/ethnicity.csv".toList
      (by decide) (by intro k; cases k <;> simp [definedFlags]) h
    simpa [createPaths, addLocalPathIfNotSetAndNotNil, ethnicityFile] using hj
  · intro h
    have hj := addLocalPathIfNotSet_default cl "patient_class_file" "configs/hl7_messages/patient_class.csv".toList
      (by decide) (by intro k; cases k <;> simp [definedFlags]) h
    simpa [createPaths, addLocalPathIfNotSetAndNotNil, patientClassFile] using hj
  · intro h
    have hj := addLocalPathIfNotSet_default cl "sample_notes_directory" "configs/hl7_messages/third_party/notes".toList
      (by decide) (by intro k; cases k <;> simp [definedFlags]) h
    simpa [createPaths, addLocalPathIfNotSetAndNotNil, sampleNotesDir] using hj
  · intro h
    have hj := addLocalPathIfNotSet_default cl "clinical_note_types_file" "configs/hl7_messages/third_party/note_types.txt".toList
      (by decide) (by intro k; cases k <;> simp [definedFlags]) h
    simpa [createPaths, addLocalPathIfNotSetAndNotNil, clinicalNoteTypesFile] using hj
  · intro h α β config hh
    have hj := addLocalPathIfNotSet_default cl "static_dir" "web/static".toList
      (by decide) (by intro k; cases k <;> simp [definedFlags]) h
    simpa [createRunnerConfig, staticDir] using hj

set_option maxRecDepth 100000 in
/-- Claim C3, at the command line `-local_path=/x`: `-output_file` is not
set, yet `SenderPaths.OutputFile` is the bare default `messages.out` and not
`path.Join(local_path, "messages.out")`, which is `/x/messages.out`; the
sibling `PathwayPaths.Dir` does get the prefix. -/
theorem createRunner_output_file_not_prefixed :
    onlyLocalPath.strings "output_file" = none ∧
    (createPaths onlyLocalPath).SenderPaths.OutputFile = "messages.out".toList ∧
    path.Join [localPath onlyLocalPath, "messages.out".toList] = "/x/messages.out".toList ∧
    (createPaths onlyLocalPath).SenderPaths.OutputFile ≠
      path.Join [localPath onlyLocalPath, "messages.out".toList] ∧
    (createPaths onlyLocalPath).PathwayPaths.Dir = "/x/configs/pathways".toList := by
  decide

end simulator
